import Mathlib

/-!
# Verification of the publish/consume abstraction layer

A shallow embedding of `rabbitmq_utils.py`, the shared publish/consume layer
of the healthy-bites microservices, together with proofs about it.

Modelling conventions:
* Python `str` values handled by the codec are `List Char` (Unicode scalar
  values; Python strings holding lone UTF-16 surrogates are outside the model).
* JSON payloads are the inductive `Json` below.  Python `float` payloads are
  outside the model, so `json.loads` inputs whose value would be a float
  (fraction or exponent part, `NaN`, `Infinity`) decode to `none`.
* Machine integers do not occur: Python integers are arbitrary precision,
  modelled by `Int`/`Nat`.
* Effectful functions are modelled as pure functions from their inputs
  (including the broker's HTTP response, supplied as data) to the list of
  observable events they perform plus their outcome; a Python exception
  is an `Except.error` outcome.
* The caller-supplied handler may raise; it is modelled as `Json → Bool`,
  `false` meaning the call raises.  Sleeps record their duration as a
  rational number of seconds (`poll_interval * 2` is exact in binary
  floating point, so `ℚ` is faithful here).
-/

namespace HealthyBites

/-! ## JSON values

The JSON fragment exchanged by the services: objects are ordered
key/value lists (Python `dict` preserves insertion order and key
uniqueness), array elements are ordered lists.  `JArr` and `JObj` are
specialised list types so that all recursion stays structural. -/

mutual
inductive Json where
  | null : Json
  | bool (b : Bool) : Json
  | int (n : Int) : Json
  | str (s : List Char) : Json
  | arr (es : JArr) : Json
  | obj (ms : JObj) : Json
  deriving DecidableEq
inductive JArr where
  | nil : JArr
  | cons (hd : Json) (tl : JArr) : JArr
  deriving DecidableEq
inductive JObj where
  | nil : JObj
  | cons (key : List Char) (val : Json) (tl : JObj) : JObj
  deriving DecidableEq
end

/-- The opening brace character (written via its code point throughout). -/
def lbrace : Char := Char.ofNat 123

/-- The closing brace character. -/
def rbrace : Char := Char.ofNat 125

/-! ## Encoder: `json.dumps` (defaults: `ensure_ascii=True`, separators `', '` / `': '`) -/

/-- Decimal digit character, as produced by Python `int.__repr__`. -/
def decDigit (d : Nat) : Char := Char.ofNat (48 + d % 10)

/-- Decimal rendering, structured with fuel so that it is structurally
recursive (any fuel above the digit count gives the same answer). -/
def natToDecAux : Nat → Nat → List Char
  | 0, _ => []
  | fuel + 1, n =>
    if n < 10 then [decDigit n]
    else natToDecAux fuel (n / 10) ++ [decDigit (n % 10)]

/-- Decimal rendering of a natural number, most significant digit first. -/
def natToDec (n : Nat) : List Char := natToDecAux (n + 1) n

/-- Rendering of a Python `int` (optional sign, then decimal digits). -/
def intRender (n : Int) : List Char :=
  if n < 0 then '-' :: natToDec n.natAbs else natToDec n.toNat

/-- Lowercase hexadecimal digit, as produced by CPython's `'\u%04x'` formatting. -/
def hexDigit (d : Nat) : Char :=
  if d < 10 then Char.ofNat (48 + d) else Char.ofNat (87 + d)

/-- The four lowercase hex digits of `u < 0x10000`. -/
def hex4 (u : Nat) : List Char :=
  [hexDigit (u / 4096 % 16), hexDigit (u / 256 % 16),
   hexDigit (u / 16 % 16), hexDigit (u % 16)]

/-- Escaping of one character, following `json.encoder.py_encode_basestring_ascii`
(the `ensure_ascii=True` default of `json.dumps`): printable ASCII other than
quote and backslash stays literal, the two-character escapes cover the usual
controls, every other character becomes `\uXXXX`, astral characters become a
UTF-16 surrogate pair of escapes. -/
def escChar (c : Char) : List Char :=
  if c = '"' then ['\\', '"']
  else if c = '\\' then ['\\', '\\']
  else if c = Char.ofNat 8 then ['\\', 'b']
  else if c = Char.ofNat 9 then ['\\', 't']
  else if c = Char.ofNat 10 then ['\\', 'n']
  else if c = Char.ofNat 12 then ['\\', 'f']
  else if c = Char.ofNat 13 then ['\\', 'r']
  else if c.toNat < 0x20 then '\\' :: 'u' :: hex4 c.toNat
  else if c.toNat ≤ 0x7E then [c]
  else if c.toNat < 0x10000 then '\\' :: 'u' :: hex4 c.toNat
  else
    '\\' :: 'u' :: hex4 (0xD800 + (c.toNat - 0x10000) / 0x400) ++
      '\\' :: 'u' :: hex4 (0xDC00 + (c.toNat - 0x10000) % 0x400)

/-- `json.dumps` rendering of a string: quote, escaped characters, quote. -/
def strRender (s : List Char) : List Char :=
  '"' :: s.flatMap escChar ++ ['"']

mutual

/-- `json.dumps` with its default separators `', '` (items) and `': '` (keys). -/
def render : Json → List Char
  | .null => "null".toList
  | .bool true => "true".toList
  | .bool false => "false".toList
  | .int n => intRender n
  | .str s => strRender s
  | .arr .nil => ['[', ']']
  | .arr es => '[' :: renderElems es ++ [']']
  | .obj .nil => [lbrace, rbrace]
  | .obj ms => lbrace :: renderMembers ms ++ [rbrace]

/-- Comma-space separated rendering of array elements. -/
def renderElems : JArr → List Char
  | .nil => []
  | .cons e .nil => render e
  | .cons e es => render e ++ ',' :: ' ' :: renderElems es

/-- Comma-space separated rendering of object members (`key: value`). -/
def renderMembers : JObj → List Char
  | .nil => []
  | .cons k v .nil => strRender k ++ ':' :: ' ' :: render v
  | .cons k v ms => strRender k ++ ':' :: ' ' :: render v ++ ',' :: ' ' :: renderMembers ms

end

/-- `json.dumps(payload)`, the canonical text encoding of an event. -/
def encode (e : Json) : List Char := render e

/-! ## Decoder: `json.loads`

A recursive-descent model of CPython's pure-Python `json` scanner
(`py_scanstring`, `JSONArray`, `JSONObject`, `py_make_scanner`) on the
float-free fragment.  Whitespace is `' '`, `'\t'`, `'\n'`, `'\r'`, exactly
Python's `WHITESPACE`. -/

/-- Skip JSON whitespace. -/
def skipWs : List Char → List Char
  | [] => []
  | c :: cs => if c.isWhitespace then skipWs cs else c :: cs

/-- Value of one hexadecimal digit (`int(c, 16)` accepts both cases). -/
def hexVal (c : Char) : Option Nat :=
  if '0' ≤ c ∧ c ≤ '9' then some (c.toNat - 48)
  else if 'a' ≤ c ∧ c ≤ 'f' then some (c.toNat - 87)
  else if 'A' ≤ c ∧ c ≤ 'F' then some (c.toNat - 55)
  else none

/-- The two-character escapes of `json.decoder.BACKSLASH`. -/
def escMap (e : Char) : Option Char :=
  if e = '"' then some '"'
  else if e = '\\' then some '\\'
  else if e = '/' then some '/'
  else if e = 'b' then some (Char.ofNat 8)
  else if e = 'f' then some (Char.ofNat 12)
  else if e = 'n' then some (Char.ofNat 10)
  else if e = 'r' then some (Char.ofNat 13)
  else if e = 't' then some (Char.ofNat 9)
  else none

/-- Prepend one decoded character to the result of parsing the remainder
of a string body. -/
def okCons (c : Char) : Option (List Char × List Char) → Option (List Char × List Char)
  | some (s, r) => some (c :: s, r)
  | none => none

/-- `int(s[end:end + 4], 16)`: the value of four hex digits. -/
def hexQuad (h1 h2 h3 h4 : Char) : Option Nat :=
  match hexVal h1, hexVal h2, hexVal h3, hexVal h4 with
  | some a, some b, some c, some d => some (((a * 16 + b) * 16 + c) * 16 + d)
  | _, _, _, _ => none

mutual

/-- Body of a JSON string after the opening quote, following `py_scanstring`
with `strict=True`: literal characters up to the closing quote (raw control
characters are rejected), two-character escapes, `\uXXXX` escapes, and
surrogate pairs of escapes for astral characters.  A lone surrogate — kept
as-is by Python — has no Unicode scalar value, hence no `Char`; such inputs
are outside the model and fail. -/
def parseStrBody : List Char → Option (List Char × List Char)
  | [] => none
  | c :: cs =>
    if c = '"' then some ([], cs)
    else if c = '\\' then parseEsc cs
    else if c.toNat < 0x20 then none
    else okCons c (parseStrBody cs)

/-- One escape sequence after the backslash, then the rest of the string. -/
def parseEsc : List Char → Option (List Char × List Char)
  | [] => none
  | e :: cs' =>
    if e = 'u' then parseUEsc cs'
    else
      match escMap e with
      | some ch => okCons ch (parseStrBody cs')
      | none => none

/-- A `\uXXXX` escape after the `\u`, then the rest of the string. -/
def parseUEsc : List Char → Option (List Char × List Char)
  | h1 :: h2 :: h3 :: h4 :: cs'' =>
    (match hexQuad h1 h2 h3 h4 with
     | some u =>
       if u < 0xD800 ∨ 0xE000 ≤ u then okCons (Char.ofNat u) (parseStrBody cs'')
       else if u < 0xDC00 then parseLowSurrogate u cs''
       else none
     | none => none)
  | _ => none

/-- After a high-surrogate `\uXXXX`, Python pairs it with an immediately
following low-surrogate escape; anything else leaves a lone surrogate, which
has no `Char`. -/
def parseLowSurrogate (u : Nat) : List Char → Option (List Char × List Char)
  | b1 :: b2 :: g1 :: g2 :: g3 :: g4 :: cs3 =>
    if b1 = '\\' ∧ b2 = 'u' then
      match hexQuad g1 g2 g3 g4 with
      | some u2 =>
        if 0xDC00 ≤ u2 ∧ u2 ≤ 0xDFFF then
          okCons (Char.ofNat (0x10000 + (u - 0xD800) * 0x400 + (u2 - 0xDC00)))
            (parseStrBody cs3)
        else none
      | none => none
    else none
  | _ => none

end

/-- Consume a maximal run of decimal digits, accumulating their value. -/
def parseDigits (acc : Nat) : List Char → Nat × List Char
  | [] => (acc, [])
  | c :: cs => if c.isDigit then parseDigits (acc * 10 + (c.toNat - 48)) cs else (acc, c :: cs)

/-- Unsigned integer literal (`0`, or a nonzero digit followed by digits); a
following fraction or exponent part would make the literal a Python float,
which is outside the model. -/
def parseIntNat (input : List Char) : Option (Nat × List Char) :=
  match input with
  | [] => none
  | c :: cs =>
    if c = '0' then
      match cs with
      | [] => some (0, [])
      | c2 :: _ => if c2 = '.' ∨ c2 = 'e' ∨ c2 = 'E' then none else some (0, cs)
    else if c.isDigit then
      match parseDigits (c.toNat - 48) cs with
      | (n, []) => some (n, [])
      | (n, c2 :: rest2) =>
        if c2 = '.' ∨ c2 = 'e' ∨ c2 = 'E' then none else some (n, c2 :: rest2)
    else none

/-- Signed integer literal, as matched by `json.scanner.NUMBER_RE` and
converted with `int`. -/
def parseIntTok (input : List Char) : Option (Int × List Char) :=
  match input with
  | [] => none
  | c :: cs =>
    if c = '-' then
      match parseIntNat cs with
      | some (n, rest') => some (-(n : Int), rest')
      | none => none
    else
      match parseIntNat (c :: cs) with
      | some (n, rest') => some ((n : Int), rest')
      | none => none

/-- `d[k] = v` on an insertion-ordered dict: replace the value of an existing
key in place, otherwise append.  `dict(pairs)` is the left fold of this. -/
def insertPair (ms : JObj) (k : List Char) (v : Json) : JObj :=
  match ms with
  | .nil => .cons k v .nil
  | .cons k' v' tl => if k' = k then .cons k' v tl else .cons k' v' (insertPair tl k v)

/-- The `null` literal after its leading `n`. -/
def parseNullTok : List Char → Option (Json × List Char)
  | 'u' :: 'l' :: 'l' :: rest => some (.null, rest)
  | _ => none

/-- The `true` literal after its leading `t`. -/
def parseTrueTok : List Char → Option (Json × List Char)
  | 'r' :: 'u' :: 'e' :: rest => some (.bool true, rest)
  | _ => none

/-- The `false` literal after its leading `f`. -/
def parseFalseTok : List Char → Option (Json × List Char)
  | 'a' :: 'l' :: 's' :: 'e' :: rest => some (.bool false, rest)
  | _ => none

mutual

/-- One JSON value (`_scan_once`, with the whitespace skipping its callers
perform).  The fuel argument only bounds recursion depth; `decode` passes
enough for any input of its length. -/
def parseVal : Nat → List Char → Option (Json × List Char)
  | 0, _ => none
  | fuel + 1, input =>
    match skipWs input with
    | [] => none
    | c :: cs =>
      if c = 'n' then parseNullTok cs
      else if c = 't' then parseTrueTok cs
      else if c = 'f' then parseFalseTok cs
      else if c = '"' then
        match parseStrBody cs with
        | some (s, rest) => some (.str s, rest)
        | none => none
      else if c = '[' then parseArrTail fuel (skipWs cs)
      else if c = lbrace then parseObjTail fuel (skipWs cs)
      else
        match parseIntTok (c :: cs) with
        | some (n, rest) => some (.int n, rest)
        | none => none

/-- Array contents after `[` and whitespace (`JSONArray`). -/
def parseArrTail : Nat → List Char → Option (Json × List Char)
  | 0, _ => none
  | fuel + 1, input =>
    match input with
    | [] => none
    | c :: cs =>
      if c = ']' then some (.arr .nil, cs)
      else
        match parseElems fuel (c :: cs) with
        | some (es, rest) => some (.arr es, rest)
        | none => none

/-- One or more comma-separated array elements, then `]`. -/
def parseElems : Nat → List Char → Option (JArr × List Char)
  | 0, _ => none
  | fuel + 1, input =>
    match parseVal fuel input with
    | none => none
    | some (v, rest) => parseElemSep fuel v (skipWs rest)

/-- After one array element: a comma and further elements, or `]`. -/
def parseElemSep : Nat → Json → List Char → Option (JArr × List Char)
  | 0, _, _ => none
  | fuel + 1, v, input =>
    match input with
    | [] => none
    | c :: rest' =>
      if c = ',' then
        match parseElems fuel (skipWs rest') with
        | some (es, rest'') => some (.cons v es, rest'')
        | none => none
      else if c = ']' then some (.cons v .nil, rest')
      else none

/-- Object contents after the opening brace and whitespace (`JSONObject`). -/
def parseObjTail : Nat → List Char → Option (Json × List Char)
  | 0, _ => none
  | fuel + 1, input =>
    match input with
    | [] => none
    | c :: cs =>
      if c = rbrace then some (.obj .nil, cs)
      else
        match parseMembers fuel .nil (c :: cs) with
        | some (ms, rest) => some (.obj ms, rest)
        | none => none

/-- One or more `"key": value` members, then the closing brace; members are
accumulated with `insertPair`, matching Python's final `dict(pairs)`. -/
def parseMembers : Nat → JObj → List Char → Option (JObj × List Char)
  | 0, _, _ => none
  | fuel + 1, acc, input =>
    match input with
    | [] => none
    | c0 :: cs =>
      if c0 = '"' then
        match parseStrBody cs with
        | none => none
        | some (k, rest) => parseMemberVal fuel acc k (skipWs rest)
      else none

/-- After a member key: the colon, then the member's value. -/
def parseMemberVal : Nat → JObj → List Char → List Char → Option (JObj × List Char)
  | 0, _, _, _ => none
  | fuel + 1, acc, k, input =>
    match input with
    | [] => none
    | c1 :: rest' =>
      if c1 = ':' then
        match parseVal fuel rest' with
        | none => none
        | some (v, rest'') => parseMemberSep fuel (insertPair acc k v) (skipWs rest'')
      else none

/-- After one member: a comma and further members, or the closing brace. -/
def parseMemberSep : Nat → JObj → List Char → Option (JObj × List Char)
  | 0, _, _ => none
  | fuel + 1, acc, input =>
    match input with
    | [] => none
    | c2 :: rest3 =>
      if c2 = ',' then parseMembers fuel acc (skipWs rest3)
      else if c2 = rbrace then some (acc, rest3)
      else none

end

/-- `json.loads`: parse one value, then require only trailing whitespace. -/
def decode (s : List Char) : Option Json :=
  match parseVal (4 * s.length + 4) s with
  | some (v, rest) => if skipWs rest = [] then some v else none
  | none => none

/-! ## Well-formed events

An event built from a Python `dict` has pairwise-distinct keys in every
object; `wfJ` is that invariant. -/

/-- Does the object have a member with this key? -/
def hasKey (k : List Char) : JObj → Bool
  | .nil => false
  | .cons k' _ tl => k' = k || hasKey k tl

mutual

/-- Every object inside the value has pairwise-distinct keys. -/
def wfJ : Json → Bool
  | .null => true
  | .bool _ => true
  | .int _ => true
  | .str _ => true
  | .arr es => wfA es
  | .obj ms => wfO ms

/-- `wfJ` on every element. -/
def wfA : JArr → Bool
  | .nil => true
  | .cons e tl => wfJ e && wfA tl

/-- Distinct keys at this level, `wfJ` in every value. -/
def wfO : JObj → Bool
  | .nil => true
  | .cons k v tl => !hasKey k tl && wfJ v && wfO tl

end

/-! ## Auxiliary notions used to state and prove codec facts -/

/-- A continuation in front of which an integer literal ends: it must not
begin with a digit (maximal munch) nor with a fraction/exponent starter. -/
def numSafe : List Char → Bool
  | [] => true
  | c :: _ => !(c.isDigit || c = '.' || c = 'e' || c = 'E')

/-- Concatenation of ordered objects. -/
def jappend : JObj → JObj → JObj
  | .nil, o => o
  | .cons k v tl, o => .cons k v (jappend tl o)

/-- `dict(pairs)`: left fold of `insertPair` over the members. -/
def foldIns : JObj → JObj → JObj
  | acc, .nil => acc
  | acc, .cons k v tl => foldIns (insertPair acc k v) tl

mutual

/-- Fuel sufficient for `parseVal` on the rendering of a value. -/
def costVal : Json → Nat
  | .null => 1
  | .bool _ => 1
  | .int _ => 1
  | .str _ => 1
  | .arr .nil => 2
  | .arr (.cons e tl) => 3 + costElems (.cons e tl)
  | .obj .nil => 2
  | .obj (.cons k v tl) => 3 + costMembers (.cons k v tl)

/-- Fuel sufficient for `parseElems` on rendered elements. -/
def costElems : JArr → Nat
  | .nil => 0
  | .cons e tl => 2 + costVal e + costElems tl

/-- Fuel sufficient for `parseMembers` on rendered members. -/
def costMembers : JObj → Nat
  | .nil => 0
  | .cons _ v tl => 3 + costVal v + costMembers tl

end

/-! ## Transport client and publisher

Each Python helper is a pure function of its arguments plus the broker's
HTTP response, returning the list of observable events it performs and its
outcome (`Except.error` models an uncaught Python exception). -/

/-- The broker's HTTP response: status code, raw body text, and the value
`resp.json()` would produce (`none` when the body is not JSON and
`resp.json()` itself would raise). -/
structure HttpResponse where
  status : Nat
  text : List Char
  jsonBody : Option Json
  deriving DecidableEq

/-- Observable events of the layer: network requests, handler dispatches,
log lines (`print`) and sleeps. -/
inductive Ev where
  | declareReq (queue : String) (durable : Bool) (autoDelete : Bool)
  | publishReq (routingKey : String) (payload : List Char)
  | fetchReq (queue : String) (count : Nat)
  | handlerCall (data : Json)
  | handlerErrLog (queue : String)
  | fetchErrLog (queue : String)
  | sleep (seconds : ℚ)
  deriving DecidableEq

/-- Uncaught exceptions of the layer. -/
inductive PyErr where
  | declareFailed (queue : String) (respText : List Char)
  | publishFailed (routingKey : String) (respText : List Char)
  | jsonDecodeFailed
  | noAttrGet
  | notRouted (routingKey : String) (result : Json)
  deriving DecidableEq

/-- `requests.Response.raise_for_status` raises exactly on 4xx/5xx codes. -/
def raiseForStatusFails (resp : HttpResponse) : Bool :=
  400 ≤ resp.status && resp.status < 600

/-- `declare_queue`: one `PUT` to the management API; non-2xx/3xx answers
become a `RuntimeError` carrying the response text. -/
def declare_queue (queue_name : String) (durable auto_delete : Bool)
    (resp : HttpResponse) : List Ev × Except PyErr Unit :=
  ([.declareReq queue_name durable auto_delete],
    if raiseForStatusFails resp then .error (.declareFailed queue_name resp.text)
    else .ok ())

/-- Python truthiness of a JSON value (`if not result.get("routed", False)`). -/
def pyTruthy : Json → Bool
  | .null => false
  | .bool b => b
  | .int n => !(n = 0 : Bool)
  | .str s => !s.isEmpty
  | .arr .nil => false
  | .arr (.cons _ _) => true
  | .obj .nil => false
  | .obj (.cons _ _ _) => true

/-- `dict.get` on an object (keys of a `dict` are unique). -/
def jget : JObj → List Char → Option Json
  | .nil, _ => none
  | .cons k v tl, key => if k = key then some v else jget tl key

/-- `publish_message`: one `POST` of the JSON-encoded payload to the
default exchange; raises on 4xx/5xx, then inspects the response JSON and
raises when the broker did not report `routed` truthy. -/
def publish_message (routing_key : String) (payload : Json)
    (resp : HttpResponse) : List Ev × Except PyErr Unit :=
  ([.publishReq routing_key (encode payload)],
    if raiseForStatusFails resp then .error (.publishFailed routing_key resp.text)
    else
      match resp.jsonBody with
      | none => .error .jsonDecodeFailed
      | some result =>
        match result with
        | .obj ms =>
          if pyTruthy ((jget ms "routed".toList).getD (.bool false)) then .ok ()
          else .error (.notRouted routing_key result)
        | _ => .error .noAttrGet)

/-! ## Consumer loop -/

/-- A fetched message as returned by the `/get` endpoint: `msg.get("payload")`
is `none` when the key is missing.  Delivery metadata is not consulted by the
code, so it is not modelled. -/
structure RawMessage where
  payload : Option (List Char)
  deriving DecidableEq

/-- Outcome of one `get_messages` call: a batch, or an exception
(connection error or non-2xx translated by `raise_for_status`). -/
inductive FetchOutcome where
  | ok (msgs : List RawMessage)
  | err
  deriving DecidableEq

/-- `_process_single_message`: skip a missing or empty payload, skip a
payload that fails to decode, otherwise call the handler; a raising handler
is caught and logged. -/
def _process_single_message (msg : RawMessage) (handler : Json → Bool)
    (queue_name : String) : List Ev :=
  match msg.payload with
  | none => []
  | some p =>
    if p.isEmpty then []
    else
      match decode p with
      | none => []
      | some data =>
        if handler data then [.handlerCall data]
        else [.handlerCall data, .handlerErrLog queue_name]

/-- `_poll_queue_once`: fetch up to 5 messages; on failure log and report
`false`; on success process each message in fetch order, then sleep
`poll_interval` and report `true`. -/
def _poll_queue_once (queue_name : String) (handler : Json → Bool)
    (poll_interval : ℚ) (outcome : FetchOutcome) : List Ev × Bool :=
  match outcome with
  | .err => ([.fetchReq queue_name 5, .fetchErrLog queue_name], false)
  | .ok messages =>
    (.fetchReq queue_name 5 ::
       messages.flatMap (fun m => _process_single_message m handler queue_name)
       ++ [.sleep poll_interval], true)

/-- One iteration of `_consumer_loop`: poll once, and after a failed poll
sleep `poll_interval * 2`. -/
def _consumer_cycle (queue_name : String) (handler : Json → Bool)
    (poll_interval : ℚ) (outcome : FetchOutcome) : List Ev :=
  let r := _poll_queue_once queue_name handler poll_interval outcome
  r.1 ++ if r.2 then [] else [.sleep (poll_interval * 2)]

/-- The guard of `_consumer_loop`'s `while True:` — literally the constant
`true`; the loop has no stop signal to observe. -/
def _consumer_loop_condition : Bool := true

/-- The events of the first `n` iterations of `_consumer_loop`, given the
outcome of each cycle's fetch. -/
def _consumer_trace (queue_name : String) (handler : Json → Bool)
    (poll_interval : ℚ) (outcomes : Nat → FetchOutcome) : Nat → List Ev
  | 0 => []
  | n + 1 => _consumer_trace queue_name handler poll_interval outcomes n
      ++ _consumer_cycle queue_name handler poll_interval (outcomes n)

/-- What `start_consumer` returns: a `threading.Thread` started with
`daemon=True`.  The object carries no stop flag — `threading.Thread` has no
`stop()` — and the loop reads no cancellation state. -/
structure ConsumerThread where
  daemon : Bool
  deriving DecidableEq

/-- `start_consumer`: synchronously declare the queue (durable, not
auto-delete); a declare failure propagates to the caller and no thread
starts; otherwise return the started daemon thread. -/
def start_consumer (queue_name : String) (handler : Json → Bool)
    (poll_interval : ℚ) (declareResp : HttpResponse) :
    List Ev × Except PyErr ConsumerThread :=
  let d := declare_queue queue_name true false declareResp
  match d.2 with
  | .error e => (d.1, .error e)
  | .ok _ => (d.1, .ok { daemon := true })

/-! ## Trace observers -/

/-- The arguments of the handler invocations in a trace, in order. -/
def handlerCalls (evs : List Ev) : List Json :=
  evs.filterMap fun ev => match ev with | .handlerCall d => some d | _ => none

/-- The durations of the sleeps in a trace, in order. -/
def sleeps (evs : List Ev) : List ℚ :=
  evs.filterMap fun ev => match ev with | .sleep d => some d | _ => none

/-- How many network declare calls a trace performs. -/
def declareCount (evs : List Ev) : Nat :=
  (evs.filter fun ev => match ev with | .declareReq _ _ _ => true | _ => false).length

/-- How many network publish calls a trace performs. -/
def publishCount (evs : List Ev) : Nat :=
  (evs.filter fun ev => match ev with | .publishReq _ _ => true | _ => false).length

/-- The decoded payload the consumer would dispatch for a message: `none`
when the payload is missing, empty, or fails to decode. -/
def decodedPayload (m : RawMessage) : Option Json :=
  match m.payload with
  | none => none
  | some p => if p.isEmpty then none else decode p

/-- The batch sizes requested by the fetch calls of a trace, in order. -/
def fetchCounts (evs : List Ev) : List Nat :=
  evs.filterMap fun ev => match ev with | .fetchReq _ c => some c | _ => none

/-! ## Codec lemmas: decimal digits and integer literals -/

theorem decDigit_facts (d : Nat) (h : d < 10) :
    (decDigit d).isDigit = true ∧ (decDigit d).toNat = 48 + d ∧
    (decDigit d).isWhitespace = false ∧
    decDigit d ≠ 'n' ∧ decDigit d ≠ 't' ∧ decDigit d ≠ 'f' ∧ decDigit d ≠ '"' ∧
    decDigit d ≠ '[' ∧ decDigit d ≠ lbrace ∧ decDigit d ≠ '-' ∧
    decDigit d ≠ ']' ∧ decDigit d ≠ rbrace ∧ decDigit d ≠ ',' ∧
    (decDigit d = '0' ↔ d = 0) := by
  interval_cases d <;> decide

theorem natToDecAux_irrel (n : Nat) : ∀ f g, n < f → n < g →
    natToDecAux f n = natToDecAux g n := by
  induction n using Nat.strong_induction_on with
  | _ n ih =>
    intro f g hf hg
    match f, g with
    | f' + 1, g' + 1 =>
      simp only [natToDecAux]
      by_cases h10 : n < 10
      · simp [h10]
      · simp only [h10, if_false]
        rw [ih (n / 10) (Nat.div_lt_self (by omega) (by omega)) f' g' (by omega) (by omega)]

/-- The ideal recursion equation for `natToDec`. -/
theorem natToDec_eq (n : Nat) :
    natToDec n = if n < 10 then [decDigit n]
      else natToDec (n / 10) ++ [decDigit (n % 10)] := by
  show natToDecAux (n + 1) n = _
  simp only [natToDecAux]
  by_cases h10 : n < 10
  · simp [h10]
  · simp only [h10, if_false]
    rw [natToDecAux_irrel (n / 10) n (n / 10 + 1)
      (Nat.div_lt_self (by omega) (by omega)) (by omega)]
    rfl

theorem natToDec_head (n : Nat) :
    ∃ d tl, natToDec n = decDigit d :: tl ∧ d < 10 ∧ (d = 0 → n = 0) := by
  induction n using Nat.strong_induction_on with
  | _ n ih =>
    rw [natToDec_eq]
    by_cases h10 : n < 10
    · exact ⟨n, [], by simp [h10], h10, fun h => h⟩
    · simp only [h10, if_false]
      obtain ⟨d, tl, heq, hd, hz⟩ := ih (n / 10) (Nat.div_lt_self (by omega) (by omega))
      exact ⟨d, tl ++ [decDigit (n % 10)], by rw [heq]; rfl, hd,
        fun h => by have := hz h; omega⟩

theorem natToDec_ne_nil (n : Nat) : natToDec n ≠ [] := by
  obtain ⟨d, tl, heq, -, -⟩ := natToDec_head n
  simp [heq]

theorem natToDec_digits (n : Nat) : ∀ c ∈ natToDec n, c.isDigit = true := by
  induction n using Nat.strong_induction_on with
  | _ n ih =>
    rw [natToDec_eq]
    by_cases h10 : n < 10
    · simp only [h10, if_true, List.mem_singleton]
      rintro c rfl
      exact (decDigit_facts n h10).1
    · simp only [h10, if_false, List.mem_append, List.mem_singleton]
      rintro c (hc | rfl)
      · exact ih (n / 10) (Nat.div_lt_self (by omega) (by omega)) c hc
      · exact (decDigit_facts (n % 10) (by omega)).1

theorem natToDec_foldl (n : Nat) : ∀ acc : Nat,
    (natToDec n).foldl (fun a c => a * 10 + (c.toNat - 48)) acc
      = acc * 10 ^ (natToDec n).length + n := by
  induction n using Nat.strong_induction_on with
  | _ n ih =>
    intro acc
    rw [natToDec_eq]
    by_cases h10 : n < 10
    · simp only [h10, if_true, List.foldl_cons, List.foldl_nil, List.length_cons,
        List.length_nil]
      rw [(decDigit_facts n h10).2.1, pow_one]
      omega
    · simp only [h10, if_false, List.foldl_append, List.foldl_cons, List.foldl_nil,
        List.length_append, List.length_cons, List.length_nil]
      rw [ih (n / 10) (Nat.div_lt_self (by omega) (by omega)) acc,
        (decDigit_facts (n % 10) (by omega)).2.1]
      rw [show (natToDec (n / 10)).length + (0 + 1) = (natToDec (n / 10)).length + 1
          from rfl,
        pow_succ, ← mul_assoc]
      have := Nat.div_add_mod n 10
      omega

theorem parseDigits_stop (acc : Nat) (l : List Char) (h : numSafe l = true) :
    parseDigits acc l = (acc, l) := by
  cases l with
  | nil => rfl
  | cons c cs =>
    simp only [numSafe, Bool.not_eq_eq_eq_not, Bool.not_true, Bool.or_eq_false_iff] at h
    simp [parseDigits, h.1.1.1]

theorem parseDigits_run (ds : List Char) (hds : ∀ c ∈ ds, c.isDigit = true) :
    ∀ (acc : Nat) (rest : List Char), (∀ a : Nat, parseDigits a rest = (a, rest)) →
    parseDigits acc (ds ++ rest)
      = (ds.foldl (fun a c => a * 10 + (c.toNat - 48)) acc, rest) := by
  induction ds with
  | nil =>
    intro acc rest hrest
    simpa using hrest acc
  | cons c cs ih =>
    intro acc rest hrest
    have hc := hds c (by simp)
    simp only [List.cons_append, parseDigits, hc, if_true, List.foldl_cons]
    exact ih (fun x hx => hds x (by simp [hx])) _ rest hrest

theorem parseIntNat_natToDec (n : Nat) (rest : List Char) (hrest : numSafe rest = true) :
    parseIntNat (natToDec n ++ rest) = some (n, rest) := by
  obtain ⟨d, tl, heq, hd, hz⟩ := natToDec_head n
  have hrest3 : ∀ c2 l2, rest = c2 :: l2 → ¬(c2 = '.' ∨ c2 = 'e' ∨ c2 = 'E') := by
    rintro c2 l2 rfl
    simp only [numSafe, Bool.not_eq_eq_eq_not, Bool.not_true, Bool.or_eq_false_iff] at hrest
    rcases hrest with ⟨⟨⟨-, h1⟩, h2⟩, h3⟩
    simp only [decide_eq_false_iff_not] at h1 h2 h3
    tauto
  by_cases hn : n = 0
  · subst hn
    have h0 : natToDec 0 = ['0'] := by rw [natToDec_eq]; decide
    rw [h0]
    show parseIntNat ('0' :: rest) = some (0, rest)
    simp only [parseIntNat, if_pos rfl]
    cases rest with
    | nil => rfl
    | cons c2 l2 =>
      have := hrest3 c2 l2 rfl
      simp [this]
  · rw [heq]
    show parseIntNat (decDigit d :: (tl ++ rest)) = some (n, rest)
    have hdz : ¬ decDigit d = '0' := by
      rw [(decDigit_facts d hd).2.2.2.2.2.2.2.2.2.2.2.2.2]
      intro h; exact hn (hz h)
    have hdig := (decDigit_facts d hd).1
    simp only [parseIntNat, hdz, if_false, hdig, if_true]
    have htl : ∀ c ∈ tl, c.isDigit = true := by
      intro c hc
      exact natToDec_digits n c (by rw [heq]; simp [hc])
    rw [parseDigits_run tl htl _ rest (fun a => parseDigits_stop a rest hrest)]
    have hval : tl.foldl (fun a c => a * 10 + (c.toNat - 48)) ((decDigit d).toNat - 48)
        = n := by
      have h0 := natToDec_foldl n 0
      rw [heq] at h0
      simpa using h0
    rw [hval]
    cases rest with
    | nil => rfl
    | cons c2 l2 =>
      have := hrest3 c2 l2 rfl
      simp [this]

theorem parseIntTok_intRender (i : Int) (rest : List Char) (hrest : numSafe rest = true) :
    parseIntTok (intRender i ++ rest) = some (i, rest) := by
  unfold intRender
  by_cases hneg : i < 0
  · simp only [hneg, if_true, List.cons_append]
    show parseIntTok ('-' :: (natToDec i.natAbs ++ rest)) = _
    simp only [parseIntTok, if_pos rfl]
    rw [parseIntNat_natToDec i.natAbs rest hrest]
    have hi : -((i.natAbs : Nat) : Int) = i := by omega
    show some (-((i.natAbs : Nat) : Int), rest) = some (i, rest)
    rw [hi]
  · simp only [hneg, if_false]
    obtain ⟨d, tl, heq, hd, -⟩ := natToDec_head i.toNat
    rw [heq]
    show parseIntTok (decDigit d :: (tl ++ rest)) = _
    have hdm : ¬ decDigit d = '-' := (decDigit_facts d hd).2.2.2.2.2.2.2.2.2.1
    simp only [parseIntTok, hdm, if_false]
    rw [show decDigit d :: (tl ++ rest) = (decDigit d :: tl) ++ rest from rfl, ← heq,
      parseIntNat_natToDec i.toNat rest hrest]
    have hi : ((i.toNat : Nat) : Int) = i := by omega
    show some (((i.toNat : Nat) : Int), rest) = some (i, rest)
    rw [hi]

/-! ## Codec lemmas: hex digits, escapes and string bodies -/

theorem hexVal_hexDigit (d : Nat) (h : d < 16) : hexVal (hexDigit d) = some d := by
  interval_cases d <;> decide

theorem hexQuad_hex4 (u : Nat) (hu : u < 0x10000) :
    hexQuad (hexDigit (u / 4096 % 16)) (hexDigit (u / 256 % 16))
      (hexDigit (u / 16 % 16)) (hexDigit (u % 16)) = some u := by
  unfold hexQuad
  rw [hexVal_hexDigit _ (Nat.mod_lt _ (by omega)), hexVal_hexDigit _ (Nat.mod_lt _ (by omega)),
    hexVal_hexDigit _ (Nat.mod_lt _ (by omega)), hexVal_hexDigit _ (Nat.mod_lt _ (by omega))]
  show some _ = some _
  congr 1
  omega

/-- A `Char` is a Unicode scalar value: never a UTF-16 surrogate. -/
theorem char_toNat_valid (c : Char) :
    c.toNat < 0xD800 ∨ (0xDFFF < c.toNat ∧ c.toNat < 0x110000) := by
  rcases c.valid with h | ⟨h1, h2⟩
  · left; exact h
  · right; exact ⟨h1, h2⟩

theorem parseStrBody_quote (r : List Char) : parseStrBody ('"' :: r) = some ([], r) := by
  rw [parseStrBody, if_pos rfl]

theorem parseStrBody_esc2 (e ch : Char) (he : escMap e = some ch) (X : List Char) :
    parseStrBody ('\\' :: e :: X) = okCons ch (parseStrBody X) := by
  have heu : ¬ e = 'u' := by
    rintro rfl
    rw [show escMap 'u' = none from rfl] at he
    cases he
  rw [parseStrBody, if_neg (by decide), if_pos rfl, parseEsc, if_neg heu, he]

theorem parseStrBody_lit (c : Char) (X : List Char) (h1 : ¬ c = '"') (h2 : ¬ c = '\\')
    (h3 : ¬ c.toNat < 0x20) : parseStrBody (c :: X) = okCons c (parseStrBody X) := by
  rw [parseStrBody, if_neg h1, if_neg h2, if_neg h3]

theorem parseStrBody_u (u : Nat) (X : List Char) (hu : u < 0x10000)
    (hv : u < 0xD800 ∨ 0xE000 ≤ u) :
    parseStrBody ('\\' :: 'u' :: hex4 u ++ X) = okCons (Char.ofNat u) (parseStrBody X) := by
  show parseStrBody ('\\' :: 'u' :: hexDigit (u / 4096 % 16) :: hexDigit (u / 256 % 16)
    :: hexDigit (u / 16 % 16) :: hexDigit (u % 16) :: X) = _
  rw [parseStrBody, if_neg (by decide), if_pos rfl, parseEsc, if_pos rfl, parseUEsc,
    hexQuad_hex4 u hu]
  show (if u < 0xD800 ∨ 0xE000 ≤ u then okCons (Char.ofNat u) (parseStrBody X)
    else if u < 0xDC00 then parseLowSurrogate u X else none) = _
  rw [if_pos hv]

theorem parseStrBody_surrogate (u v2 : Nat) (X : List Char) (hu : 0xD800 ≤ u)
    (hu2 : u < 0xDC00) (hv : 0xDC00 ≤ v2) (hv2 : v2 ≤ 0xDFFF) :
    parseStrBody ('\\' :: 'u' :: hex4 u ++ '\\' :: 'u' :: hex4 v2 ++ X)
      = okCons (Char.ofNat (0x10000 + (u - 0xD800) * 0x400 + (v2 - 0xDC00)))
          (parseStrBody X) := by
  show parseStrBody ('\\' :: 'u' :: hexDigit (u / 4096 % 16) :: hexDigit (u / 256 % 16)
    :: hexDigit (u / 16 % 16) :: hexDigit (u % 16) :: ('\\' :: 'u' :: hexDigit (v2 / 4096 % 16)
      :: hexDigit (v2 / 256 % 16) :: hexDigit (v2 / 16 % 16) :: hexDigit (v2 % 16) :: X)) = _
  rw [parseStrBody, if_neg (by decide), if_pos rfl, parseEsc, if_pos rfl, parseUEsc,
    hexQuad_hex4 u (by omega)]
  show (if u < 0xD800 ∨ 0xE000 ≤ u then _ else if u < 0xDC00
    then parseLowSurrogate u ('\\' :: 'u' :: hexDigit (v2 / 4096 % 16) :: hexDigit (v2 / 256 % 16)
      :: hexDigit (v2 / 16 % 16) :: hexDigit (v2 % 16) :: X) else none) = _
  rw [if_neg (by omega), if_pos hu2, parseLowSurrogate, if_pos ⟨rfl, rfl⟩,
    hexQuad_hex4 v2 (by omega)]
  show (if 0xDC00 ≤ v2 ∧ v2 ≤ 0xDFFF then _ else none) = _
  rw [if_pos ⟨hv, hv2⟩]

/-- Parsing the escape of any single character recovers that character. -/
theorem parseStrBody_escChar (c : Char) (X : List Char) :
    parseStrBody (escChar c ++ X) = okCons c (parseStrBody X) := by
  unfold escChar
  by_cases h1 : c = '"'
  · subst h1; rw [if_pos rfl]; exact parseStrBody_esc2 '"' '"' rfl X
  rw [if_neg h1]
  by_cases h2 : c = '\\'
  · subst h2; rw [if_pos rfl]; exact parseStrBody_esc2 '\\' '\\' rfl X
  rw [if_neg h2]
  by_cases h3 : c = Char.ofNat 8
  · subst h3; rw [if_pos rfl]; exact parseStrBody_esc2 'b' (Char.ofNat 8) rfl X
  rw [if_neg h3]
  by_cases h4 : c = Char.ofNat 9
  · subst h4; rw [if_pos rfl]; exact parseStrBody_esc2 't' (Char.ofNat 9) rfl X
  rw [if_neg h4]
  by_cases h5 : c = Char.ofNat 10
  · subst h5; rw [if_pos rfl]; exact parseStrBody_esc2 'n' (Char.ofNat 10) rfl X
  rw [if_neg h5]
  by_cases h6 : c = Char.ofNat 12
  · subst h6; rw [if_pos rfl]; exact parseStrBody_esc2 'f' (Char.ofNat 12) rfl X
  rw [if_neg h6]
  by_cases h7 : c = Char.ofNat 13
  · subst h7; rw [if_pos rfl]; exact parseStrBody_esc2 'r' (Char.ofNat 13) rfl X
  rw [if_neg h7]
  by_cases h8 : c.toNat < 0x20
  · rw [if_pos h8]
    have := parseStrBody_u c.toNat X (by omega) (Or.inl (by omega))
    rw [Char.ofNat_toNat] at this
    exact this
  rw [if_neg h8]
  by_cases h9 : c.toNat ≤ 0x7E
  · rw [if_pos h9]
    exact parseStrBody_lit c X h1 h2 h8
  rw [if_neg h9]
  by_cases h10 : c.toNat < 0x10000
  · rw [if_pos h10]
    have hvr : c.toNat < 0xD800 ∨ 0xE000 ≤ c.toNat := by
      rcases char_toNat_valid c with h | ⟨ha, hb⟩ <;> omega
    have := parseStrBody_u c.toNat X h10 hvr
    rw [Char.ofNat_toNat] at this
    exact this
  rw [if_neg h10]
  have hrange : c.toNat < 0x110000 := by
    rcases char_toNat_valid c with h | ⟨ha, hb⟩ <;> omega
  have := parseStrBody_surrogate (0xD800 + (c.toNat - 0x10000) / 0x400)
    (0xDC00 + (c.toNat - 0x10000) % 0x400) X (by omega) (by omega) (by omega)
    (by omega)
  rw [show 0x10000 + (0xD800 + (c.toNat - 0x10000) / 0x400 - 0xD800) * 0x400 +
      (0xDC00 + (c.toNat - 0x10000) % 0x400 - 0xDC00) = c.toNat from by omega,
    Char.ofNat_toNat] at this
  exact this

/-- Parsing the full escaped body of a string, then the closing quote,
recovers the string. -/
theorem parseStrBody_escape (s : List Char) : ∀ rest : List Char,
    parseStrBody (s.flatMap escChar ++ '"' :: rest) = some (s, rest) := by
  induction s with
  | nil =>
    intro rest
    rw [List.flatMap_nil, List.nil_append]
    exact parseStrBody_quote rest
  | cons c s ih =>
    intro rest
    rw [List.flatMap_cons, List.append_assoc, parseStrBody_escChar, ih]
    rfl

/-! ## Codec lemmas: whitespace, rendered heads and one-step unfoldings -/

theorem skipWs_cons_not (c : Char) (cs : List Char) (h : c.isWhitespace = false) :
    skipWs (c :: cs) = c :: cs := by
  rw [skipWs]
  simp [h]

theorem skipWs_space (l : List Char) : skipWs (' ' :: l) = skipWs l := by
  rw [skipWs]
  simp

/-- Every rendered value begins with a non-whitespace character that is not
a closing delimiter. -/
theorem render_head (e : Json) : ∃ c cs', render e = c :: cs' ∧ c.isWhitespace = false ∧
    ¬ c = ']' ∧ ¬ c = rbrace := by
  cases e with
  | null => refine ⟨'n', _, rfl, ?_, ?_, ?_⟩ <;> decide
  | bool b =>
    cases b
    · refine ⟨'f', _, rfl, ?_, ?_, ?_⟩ <;> decide
    · refine ⟨'t', _, rfl, ?_, ?_, ?_⟩ <;> decide
  | int i =>
    show ∃ c cs', intRender i = c :: cs' ∧ _
    rw [intRender]
    by_cases hneg : i < 0
    · refine ⟨'-', _, by rw [if_pos hneg], ?_, ?_, ?_⟩ <;> decide
    · rw [if_neg hneg]
      obtain ⟨d, tl, heq, hd, -⟩ := natToDec_head i.toNat
      obtain ⟨-, -, hws, -, -, -, -, -, -, -, hne1, hne2, -⟩ := decDigit_facts d hd
      exact ⟨decDigit d, tl, heq, hws, hne1, hne2⟩
  | str s => refine ⟨'"', _, rfl, ?_, ?_, ?_⟩ <;> decide
  | arr es =>
    cases es with
    | nil => refine ⟨'[', _, rfl, ?_, ?_, ?_⟩ <;> decide
    | cons e tl =>
      refine ⟨'[', renderElems (.cons e tl) ++ [']'], by rw [render] <;> simp, ?_, ?_, ?_⟩
        <;> decide
  | obj ms =>
    cases ms with
    | nil => refine ⟨lbrace, _, rfl, ?_, ?_, ?_⟩ <;> decide
    | cons k v tl =>
      refine ⟨lbrace, renderMembers (.cons k v tl) ++ [rbrace], by rw [render] <;> simp,
        ?_, ?_, ?_⟩ <;> decide

theorem skipWs_render (e : Json) (rest : List Char) :
    skipWs (render e ++ rest) = render e ++ rest := by
  obtain ⟨c, cs', heq, hws, -, -⟩ := render_head e
  rw [heq, List.cons_append, skipWs_cons_not _ _ hws]

theorem render_length_pos (e : Json) : 1 ≤ (render e).length := by
  obtain ⟨c, cs', heq, -, -, -⟩ := render_head e
  rw [heq]
  simp

theorem parseVal_succ_cons (fuel : Nat) (input : List Char) (c : Char) (cs : List Char)
    (hskip : skipWs input = c :: cs) :
    parseVal (fuel + 1) input =
      (if c = 'n' then parseNullTok cs
       else if c = 't' then parseTrueTok cs
       else if c = 'f' then parseFalseTok cs
       else if c = '"' then
         match parseStrBody cs with
         | some (s, rest) => some (.str s, rest)
         | none => none
       else if c = '[' then parseArrTail fuel (skipWs cs)
       else if c = lbrace then parseObjTail fuel (skipWs cs)
       else
         match parseIntTok (c :: cs) with
         | some (n, rest) => some (.int n, rest)
         | none => none) := by
  rw [parseVal, hskip]

theorem parseArrTail_succ_cons (fuel : Nat) (c : Char) (cs : List Char) :
    parseArrTail (fuel + 1) (c :: cs) =
      (if c = ']' then some (.arr .nil, cs)
       else
         match parseElems fuel (c :: cs) with
         | some (es, rest) => some (.arr es, rest)
         | none => none) := by
  rw [parseArrTail]

theorem parseElems_succ (fuel : Nat) (input : List Char) :
    parseElems (fuel + 1) input =
      (match parseVal fuel input with
       | none => none
       | some (v, rest) => parseElemSep fuel v (skipWs rest)) := by
  rw [parseElems]

theorem parseElemSep_succ_cons (fuel : Nat) (v : Json) (c : Char) (rest' : List Char) :
    parseElemSep (fuel + 1) v (c :: rest') =
      (if c = ',' then
         match parseElems fuel (skipWs rest') with
         | some (es, rest'') => some (.cons v es, rest'')
         | none => none
       else if c = ']' then some (.cons v .nil, rest')
       else none) := by
  rw [parseElemSep]

theorem parseObjTail_succ_cons (fuel : Nat) (c : Char) (cs : List Char) :
    parseObjTail (fuel + 1) (c :: cs) =
      (if c = rbrace then some (.obj .nil, cs)
       else
         match parseMembers fuel .nil (c :: cs) with
         | some (ms, rest) => some (.obj ms, rest)
         | none => none) := by
  rw [parseObjTail]

theorem parseMembers_succ_cons (fuel : Nat) (acc : JObj) (c0 : Char) (cs : List Char) :
    parseMembers (fuel + 1) acc (c0 :: cs) =
      (if c0 = '"' then
         match parseStrBody cs with
         | none => none
         | some (k, rest) => parseMemberVal fuel acc k (skipWs rest)
       else none) := by
  rw [parseMembers]

theorem parseMemberVal_succ_cons (fuel : Nat) (acc : JObj) (k : List Char) (c1 : Char)
    (rest' : List Char) :
    parseMemberVal (fuel + 1) acc k (c1 :: rest') =
      (if c1 = ':' then
         match parseVal fuel rest' with
         | none => none
         | some (v, rest'') => parseMemberSep fuel (insertPair acc k v) (skipWs rest'')
       else none) := by
  rw [parseMemberVal]

theorem parseMemberSep_succ_cons (fuel : Nat) (acc : JObj) (c2 : Char) (rest3 : List Char) :
    parseMemberSep (fuel + 1) acc (c2 :: rest3) =
      (if c2 = ',' then parseMembers fuel acc (skipWs rest3)
       else if c2 = rbrace then some (acc, rest3)
       else none) := by
  rw [parseMemberSep]

/-! ## Codec lemmas: render shapes and fuel bounds -/

theorem render_arr_cons (e : Json) (tl : JArr) :
    render (.arr (.cons e tl)) = '[' :: (renderElems (.cons e tl) ++ [']']) := by
  rw [render] <;> simp

theorem render_obj_cons (k : List Char) (v : Json) (tl : JObj) :
    render (.obj (.cons k v tl)) = lbrace :: (renderMembers (.cons k v tl) ++ [rbrace]) := by
  rw [render] <;> simp

theorem renderElems_single (e : Json) : renderElems (.cons e .nil) = render e := by
  rw [renderElems]

theorem renderElems_cons₂ (e e' : Json) (tl : JArr) :
    renderElems (.cons e (.cons e' tl))
      = render e ++ ',' :: ' ' :: renderElems (.cons e' tl) := by
  rw [renderElems] <;> simp

theorem renderMembers_single (k : List Char) (v : Json) :
    renderMembers (.cons k v .nil) = strRender k ++ ':' :: ' ' :: render v := by
  rw [renderMembers]

theorem renderMembers_cons₂ (k : List Char) (v : Json) (k' : List Char) (v' : Json)
    (tl : JObj) :
    renderMembers (.cons k v (.cons k' v' tl))
      = strRender k ++ ':' :: ' ' :: render v ++ ',' :: ' '
          :: renderMembers (.cons k' v' tl) := by
  rw [renderMembers] <;> simp

theorem costVal_pos (e : Json) : 1 ≤ costVal e := by
  cases e with
  | null => simp [costVal]
  | bool b => simp [costVal]
  | int n => simp [costVal]
  | str s => simp [costVal]
  | arr es => cases es <;> simp [costVal] <;> omega
  | obj ms => cases ms <;> simp [costVal] <;> omega

mutual

theorem costVal_le_render : ∀ e : Json, costVal e ≤ 4 * (render e).length
  | .null => by simp [costVal, render]
  | .bool b => by cases b <;> simp [costVal, render]
  | .int n => by
      have h := render_length_pos (.int n)
      simp only [costVal]
      omega
  | .str s => by
      have h := render_length_pos (.str s)
      simp only [costVal]
      omega
  | .arr .nil => by simp [costVal, render]
  | .arr (.cons e tl) => by
      have h1 := costElems_le_render (.cons e tl)
      rw [render_arr_cons]
      simp only [costVal, List.length_cons, List.length_append] at h1 ⊢
      omega
  | .obj .nil => by simp [costVal, render]
  | .obj (.cons k v tl) => by
      have h1 := costMembers_le_render (.cons k v tl)
      rw [render_obj_cons]
      simp only [costVal, List.length_cons, List.length_append] at h1 ⊢
      omega

theorem costElems_le_render : ∀ es : JArr, costElems es ≤ 4 * (renderElems es).length + 2
  | .nil => by simp [costElems]
  | .cons e .nil => by
      have h1 := costVal_le_render e
      rw [renderElems_single]
      simp only [costElems]
      omega
  | .cons e (.cons e' tl) => by
      have h1 := costVal_le_render e
      have h2 := costElems_le_render (.cons e' tl)
      rw [renderElems_cons₂]
      simp only [costElems, List.length_append, List.length_cons] at h2 ⊢
      omega

theorem costMembers_le_render : ∀ ms : JObj, costMembers ms ≤ 4 * (renderMembers ms).length + 2
  | .nil => by simp [costMembers]
  | .cons k v .nil => by
      have h1 := costVal_le_render v
      rw [renderMembers_single]
      simp only [costMembers, List.length_append, List.length_cons]
      omega
  | .cons k v (.cons k' v' tl) => by
      have h1 := costVal_le_render v
      have h2 := costMembers_le_render (.cons k' v' tl)
      rw [renderMembers_cons₂]
      simp only [costMembers, List.length_append, List.length_cons] at h2 ⊢
      omega

end

/-! ## Codec lemmas: ordered-dict folding and well-formedness -/

theorem jappend_nil : ∀ o : JObj, jappend o .nil = o
  | .nil => rfl
  | .cons k v tl => by rw [jappend, jappend_nil tl]

theorem jappend_assoc : ∀ a b c : JObj, jappend (jappend a b) c = jappend a (jappend b c)
  | .nil, _, _ => rfl
  | .cons k v tl, b, c => by rw [jappend, jappend, jappend, jappend_assoc tl b c]

theorem hasKey_jappend (k : List Char) : ∀ a b : JObj,
    hasKey k (jappend a b) = (hasKey k a || hasKey k b)
  | .nil, _ => rfl
  | .cons k' v' tl, b => by
    rw [jappend, hasKey, hasKey, hasKey_jappend k tl b, Bool.or_assoc]

theorem insertPair_not_mem : ∀ (acc : JObj) (k : List Char) (v : Json),
    hasKey k acc = false → insertPair acc k v = jappend acc (.cons k v .nil)
  | .nil, _, _, _ => rfl
  | .cons k' v' tl, k, v, h => by
    rw [hasKey] at h
    simp only [Bool.or_eq_false_iff, decide_eq_false_iff_not] at h
    rw [insertPair, if_neg h.1, jappend, insertPair_not_mem tl k v h.2]

theorem wfJ_arr (es : JArr) : wfJ (.arr es) = wfA es := by rw [wfJ]

theorem wfJ_obj (ms : JObj) : wfJ (.obj ms) = wfO ms := by rw [wfJ]

theorem wfA_cons (e : Json) (tl : JArr) : wfA (.cons e tl) = (wfJ e && wfA tl) := by
  rw [wfA]

theorem wfO_cons (k : List Char) (v : Json) (tl : JObj) :
    wfO (.cons k v tl) = (!hasKey k tl && (wfJ v && wfO tl)) := by
  rw [wfO]
  simp [Bool.and_assoc]

/-- With distinct keys that are fresh for the accumulator, `dict(pairs)`
just appends the members in order. -/
theorem foldIns_eq_append : ∀ (ms : JObj) (acc : JObj),
    (∀ k, hasKey k ms = true → hasKey k acc = false) →
    wfO ms = true → foldIns acc ms = jappend acc ms
  | .nil, acc, _, _ => by rw [foldIns, jappend_nil]
  | .cons k v tl, acc, hdisj, hwf => by
    rw [wfO_cons] at hwf
    simp only [Bool.and_eq_true, Bool.not_eq_eq_eq_not, Bool.not_true] at hwf
    obtain ⟨hk, -, hwtl⟩ := hwf
    have hkacc : hasKey k acc = false := by
      apply hdisj
      rw [hasKey]
      simp
    rw [foldIns, insertPair_not_mem acc k v hkacc]
    rw [foldIns_eq_append tl (jappend acc (.cons k v .nil)) ?_ hwtl]
    · rw [jappend_assoc]
      rfl
    · intro k' hk'
      rw [hasKey_jappend]
      have h1 : hasKey k' acc = false := by
        apply hdisj
        rw [hasKey, hk']
        simp
      have h2 : hasKey k' (.cons k v .nil) = false := by
        rw [hasKey]
        simp only [hasKey, Bool.or_false, decide_eq_false_iff_not]
        rintro rfl
        rw [hk'] at hk
        cases hk
      rw [h1, h2]
      rfl

/-- `dict(pairs)` of the members of a well-formed object is the object. -/
theorem foldIns_nil (ms : JObj) (hwf : wfO ms = true) : foldIns JObj.nil ms = ms := by
  rw [foldIns_eq_append ms .nil (fun k _ => rfl) hwf]
  rfl

/-! ## Codec lemmas: normalized renderings -/

theorem renderElems_head (e : Json) (tl : JArr) :
    ∃ c cs', renderElems (.cons e tl) = c :: cs' ∧ c.isWhitespace = false ∧
      ¬ c = ']' ∧ ¬ c = rbrace := by
  obtain ⟨c, cs', heq, h1, h2, h3⟩ := render_head e
  cases tl with
  | nil => exact ⟨c, cs', by rw [renderElems_single, heq], h1, h2, h3⟩
  | cons e' tl' =>
    refine ⟨c, cs' ++ ',' :: ' ' :: renderElems (.cons e' tl'), ?_, h1, h2, h3⟩
    rw [renderElems_cons₂, heq]
    rfl

theorem renderMembers_head (k : List Char) (v : Json) (tl : JObj) :
    ∃ cs', renderMembers (.cons k v tl) = '"' :: cs' := by
  cases tl with
  | nil =>
    refine ⟨k.flatMap escChar ++ '"' :: (':' :: ' ' :: render v), ?_⟩
    rw [renderMembers_single]
    simp [strRender, List.append_assoc]
  | cons k' v' tl' =>
    refine ⟨k.flatMap escChar ++ '"' :: (':' :: ' '
      :: (render v ++ ',' :: ' ' :: renderMembers (.cons k' v' tl'))), ?_⟩
    rw [renderMembers_cons₂]
    simp [strRender, List.append_assoc]

theorem renderElems_expand_cons (e e' : Json) (tl : JArr) (rest : List Char) :
    renderElems (.cons e (.cons e' tl)) ++ ']' :: rest
      = render e ++ ',' :: ' ' :: (renderElems (.cons e' tl) ++ ']' :: rest) := by
  rw [renderElems_cons₂]
  simp [List.append_assoc]

theorem renderMembers_expand_single (k : List Char) (v : Json) (rest : List Char) :
    renderMembers (.cons k v .nil) ++ rbrace :: rest
      = '"' :: (k.flatMap escChar ++ '"' :: (':' :: ' ' :: (render v ++ rbrace :: rest))) := by
  rw [renderMembers_single]
  simp [strRender, List.append_assoc]

theorem renderMembers_expand_cons (k : List Char) (v : Json) (k' : List Char) (v' : Json)
    (tl : JObj) (rest : List Char) :
    renderMembers (.cons k v (.cons k' v' tl)) ++ rbrace :: rest
      = '"' :: (k.flatMap escChar ++ '"' :: (':' :: ' '
          :: (render v ++ ',' :: ' ' :: (renderMembers (.cons k' v' tl) ++ rbrace :: rest)))) := by
  rw [renderMembers_cons₂]
  simp [strRender, List.append_assoc]

/-! ## The codec round trip -/

/-- The scanner recovers every rendered value, element list and member
list, given enough fuel: the parser is a left inverse of `json.dumps` on
well-formed values. -/
theorem parse_render_all : ∀ f : Nat,
    (∀ e input rest, costVal e ≤ f → numSafe rest = true → wfJ e = true →
      skipWs input = render e ++ rest → parseVal f input = some (e, rest)) ∧
    (∀ es rest, es ≠ JArr.nil → costElems es + 1 ≤ f → wfA es = true →
      parseElems f (renderElems es ++ ']' :: rest) = some (es, rest)) ∧
    (∀ ms acc rest, ms ≠ JObj.nil → costMembers ms + 1 ≤ f → wfO ms = true →
      parseMembers f acc (renderMembers ms ++ rbrace :: rest)
        = some (foldIns acc ms, rest)) := by
  intro f
  induction f using Nat.strong_induction_on with
  | _ f ih =>
  have P1 : ∀ m, m < f → ∀ e input rest, costVal e ≤ m → numSafe rest = true →
      wfJ e = true → skipWs input = render e ++ rest → parseVal m input = some (e, rest) :=
    fun m hm => (ih m hm).1
  have P2 : ∀ m, m < f → ∀ es rest, es ≠ JArr.nil → costElems es + 1 ≤ m →
      wfA es = true → parseElems m (renderElems es ++ ']' :: rest) = some (es, rest) :=
    fun m hm => (ih m hm).2.1
  have P3 : ∀ m, m < f → ∀ ms acc rest, ms ≠ JObj.nil → costMembers ms + 1 ≤ m →
      wfO ms = true → parseMembers m acc (renderMembers ms ++ rbrace :: rest)
        = some (foldIns acc ms, rest) :=
    fun m hm => (ih m hm).2.2
  refine ⟨?_, ?_, ?_⟩
  -- Part 1: parseVal on a rendered value
  · intro e input rest hcost hsafe hwf hskip
    obtain ⟨f₁, rfl⟩ : ∃ f₁, f = f₁ + 1 := by
      have := costVal_pos e
      exact ⟨f - 1, by omega⟩
    cases e with
    | null =>
      rw [parseVal_succ_cons f₁ input 'n' ('u' :: 'l' :: 'l' :: rest) (by rw [hskip]; rfl)]
      rw [if_pos rfl]
      rfl
    | bool b =>
      cases b with
      | true =>
        rw [parseVal_succ_cons f₁ input 't' ('r' :: 'u' :: 'e' :: rest) (by rw [hskip]; rfl)]
        rw [if_neg (by decide), if_pos rfl]
        rfl
      | false =>
        rw [parseVal_succ_cons f₁ input 'f' ('a' :: 'l' :: 's' :: 'e' :: rest)
          (by rw [hskip]; rfl)]
        rw [if_neg (by decide), if_neg (by decide), if_pos rfl]
        rfl
    | int i =>
      have hp := parseIntTok_intRender i rest hsafe
      by_cases hneg : i < 0
      · have hint : render (.int i) = '-' :: natToDec i.natAbs := by
          show intRender i = _
          rw [intRender, if_pos hneg]
        rw [parseVal_succ_cons f₁ input '-' (natToDec i.natAbs ++ rest)
          (by rw [hskip, hint]; rfl)]
        rw [if_neg (by decide), if_neg (by decide), if_neg (by decide), if_neg (by decide),
          if_neg (by decide), if_neg (by decide)]
        rw [show intRender i = '-' :: natToDec i.natAbs from by rw [intRender, if_pos hneg]] at hp
        simp only [List.cons_append] at hp
        rw [hp]
      · obtain ⟨d, tl, heq, hd, -⟩ := natToDec_head i.toNat
        have hint : render (.int i) = decDigit d :: tl := by
          show intRender i = _
          rw [intRender, if_neg hneg, heq]
        obtain ⟨hdig, htoNat, hws, hn, ht, hf, hq, hbr, hlb, hdash, hrb, hrb2, hcm, hiff⟩ :=
          decDigit_facts d hd
        rw [parseVal_succ_cons f₁ input (decDigit d) (tl ++ rest)
          (by rw [hskip, hint]; rfl)]
        rw [if_neg hn, if_neg ht, if_neg hf, if_neg hq, if_neg hbr, if_neg hlb]
        rw [show intRender i = decDigit d :: tl from by rw [intRender, if_neg hneg, heq]] at hp
        simp only [List.cons_append] at hp
        rw [hp]
    | str s =>
      have hstr : render (.str s) ++ rest = '"' :: (s.flatMap escChar ++ '"' :: rest) := by
        show ('"' :: (s.flatMap escChar ++ ['"'])) ++ rest = _
        simp
      rw [parseVal_succ_cons f₁ input '"' (s.flatMap escChar ++ '"' :: rest)
        (by rw [hskip]; exact hstr)]
      rw [if_neg (by decide), if_neg (by decide), if_neg (by decide), if_pos rfl]
      rw [parseStrBody_escape]
    | arr es =>
      cases es with
      | nil =>
        obtain ⟨f₂, rfl⟩ : ∃ f₂, f₁ = f₂ + 1 := by
          simp only [costVal] at hcost
          exact ⟨f₁ - 1, by omega⟩
        rw [parseVal_succ_cons (f₂ + 1) input '[' (']' :: rest) (by rw [hskip]; rfl)]
        rw [if_neg (by decide), if_neg (by decide), if_neg (by decide), if_neg (by decide),
          if_pos rfl]
        rw [skipWs_cons_not _ _ (by decide), parseArrTail_succ_cons, if_pos rfl]
      | cons e1 tl =>
        obtain ⟨f₂, rfl⟩ : ∃ f₂, f₁ = f₂ + 1 := by
          simp only [costVal] at hcost
          exact ⟨f₁ - 1, by omega⟩
        rw [wfJ_arr] at hwf
        have hren : render (.arr (.cons e1 tl)) ++ rest
            = '[' :: (renderElems (.cons e1 tl) ++ ']' :: rest) := by
          rw [render_arr_cons]
          simp [List.append_assoc]
        rw [parseVal_succ_cons (f₂ + 1) input '[' (renderElems (.cons e1 tl) ++ ']' :: rest)
          (by rw [hskip]; exact hren)]
        rw [if_neg (by decide), if_neg (by decide), if_neg (by decide), if_neg (by decide),
          if_pos rfl]
        obtain ⟨c1, cs1, hEeq, hws1, hne1, -⟩ := renderElems_head e1 tl
        have hsw : skipWs (renderElems (.cons e1 tl) ++ ']' :: rest)
            = renderElems (.cons e1 tl) ++ ']' :: rest := by
          rw [hEeq, List.cons_append, skipWs_cons_not _ _ hws1]
        rw [hsw, hEeq, List.cons_append, parseArrTail_succ_cons f₂ c1 (cs1 ++ ']' :: rest),
          if_neg hne1, ← List.cons_append, ← hEeq]
        rw [P2 f₂ (by omega) (.cons e1 tl) rest (by simp)
          (by simp only [costVal] at hcost; omega) hwf]
    | obj ms =>
      cases ms with
      | nil =>
        obtain ⟨f₂, rfl⟩ : ∃ f₂, f₁ = f₂ + 1 := by
          simp only [costVal] at hcost
          exact ⟨f₁ - 1, by omega⟩
        rw [parseVal_succ_cons (f₂ + 1) input lbrace (rbrace :: rest) (by rw [hskip]; rfl)]
        rw [if_neg (by decide), if_neg (by decide), if_neg (by decide), if_neg (by decide),
          if_neg (by decide), if_pos rfl]
        rw [skipWs_cons_not _ _ (by decide), parseObjTail_succ_cons, if_pos rfl]
      | cons k v tl =>
        obtain ⟨f₂, rfl⟩ : ∃ f₂, f₁ = f₂ + 1 := by
          simp only [costVal] at hcost
          exact ⟨f₁ - 1, by omega⟩
        rw [wfJ_obj] at hwf
        have hren : render (.obj (.cons k v tl)) ++ rest
            = lbrace :: (renderMembers (.cons k v tl) ++ rbrace :: rest) := by
          rw [render_obj_cons]
          simp [List.append_assoc]
        rw [parseVal_succ_cons (f₂ + 1) input lbrace
          (renderMembers (.cons k v tl) ++ rbrace :: rest) (by rw [hskip]; exact hren)]
        rw [if_neg (by decide), if_neg (by decide), if_neg (by decide), if_neg (by decide),
          if_neg (by decide), if_pos rfl]
        obtain ⟨cs2, hMeq⟩ := renderMembers_head k v tl
        have hsw : skipWs (renderMembers (.cons k v tl) ++ rbrace :: rest)
            = renderMembers (.cons k v tl) ++ rbrace :: rest := by
          rw [hMeq, List.cons_append, skipWs_cons_not _ _ (by decide)]
        rw [hsw, hMeq, List.cons_append, parseObjTail_succ_cons f₂ '"' (cs2 ++ rbrace :: rest),
          if_neg (by decide), ← List.cons_append, ← hMeq]
        rw [P3 f₂ (by omega) (.cons k v tl) .nil rest (by simp)
          (by simp only [costVal] at hcost; omega) hwf]
        rw [foldIns_nil _ hwf]
  -- Part 2: parseElems on rendered elements
  · intro es rest hne hcost hwfA
    cases es with
    | nil => exact absurd rfl hne
    | cons e1 tl =>
      obtain ⟨g, rfl⟩ : ∃ g, f = g + 1 := by
        simp only [costElems] at hcost
        exact ⟨f - 1, by omega⟩
      rw [wfA_cons] at hwfA
      simp only [Bool.and_eq_true] at hwfA
      rw [parseElems_succ]
      cases tl with
      | nil =>
        rw [renderElems_single]
        rw [P1 g (by omega) e1 (render e1 ++ ']' :: rest) (']' :: rest)
          (by simp only [costElems] at hcost; omega) rfl hwfA.1 (skipWs_render e1 _)]
        show parseElemSep g e1 (skipWs (']' :: rest)) = _
        rw [skipWs_cons_not _ _ (by decide)]
        obtain ⟨g₂, rfl⟩ : ∃ g₂, g = g₂ + 1 := by
          simp only [costElems] at hcost
          have := costVal_pos e1
          exact ⟨g - 1, by omega⟩
        rw [parseElemSep_succ_cons, if_neg (by decide), if_pos rfl]
      | cons e2 tl' =>
        rw [renderElems_expand_cons]
        rw [P1 g (by omega) e1
          (render e1 ++ ',' :: ' ' :: (renderElems (.cons e2 tl') ++ ']' :: rest))
          (',' :: ' ' :: (renderElems (.cons e2 tl') ++ ']' :: rest))
          (by simp only [costElems] at hcost; omega) rfl hwfA.1 (skipWs_render e1 _)]
        show parseElemSep g e1
          (skipWs (',' :: ' ' :: (renderElems (.cons e2 tl') ++ ']' :: rest))) = _
        rw [skipWs_cons_not _ _ (by decide)]
        obtain ⟨g₂, rfl⟩ : ∃ g₂, g = g₂ + 1 := by
          simp only [costElems] at hcost
          have := costVal_pos e1
          exact ⟨g - 1, by omega⟩
        rw [parseElemSep_succ_cons, if_pos rfl, skipWs_space]
        obtain ⟨c2, cs2, hEeq, hws2, -, -⟩ := renderElems_head e2 tl'
        have hsw : skipWs (renderElems (.cons e2 tl') ++ ']' :: rest)
            = renderElems (.cons e2 tl') ++ ']' :: rest := by
          rw [hEeq, List.cons_append, skipWs_cons_not _ _ hws2]
        rw [hsw]
        rw [P2 g₂ (by omega) (.cons e2 tl') rest (by simp)
          (by simp only [costElems] at hcost ⊢; omega) hwfA.2]
  -- Part 3: parseMembers on rendered members
  · intro ms acc rest hne hcost hwfO
    cases ms with
    | nil => exact absurd rfl hne
    | cons k v tl =>
      rw [wfO_cons] at hwfO
      simp only [Bool.and_eq_true, Bool.not_eq_eq_eq_not, Bool.not_true] at hwfO
      obtain ⟨hknotin, hwfv, hwftl⟩ := hwfO
      obtain ⟨f₁, rfl⟩ : ∃ f₁, f = f₁ + 1 := by
        simp only [costMembers] at hcost
        exact ⟨f - 1, by omega⟩
      cases tl with
      | nil =>
        rw [renderMembers_expand_single]
        rw [parseMembers_succ_cons, if_pos rfl, parseStrBody_escape]
        show parseMemberVal f₁ acc k (skipWs (':' :: ' ' :: (render v ++ rbrace :: rest))) = _
        rw [skipWs_cons_not _ _ (by decide)]
        obtain ⟨f₂, rfl⟩ : ∃ f₂, f₁ = f₂ + 1 := by
          simp only [costMembers] at hcost
          exact ⟨f₁ - 1, by omega⟩
        rw [parseMemberVal_succ_cons, if_pos rfl]
        rw [P1 f₂ (by omega) v (' ' :: (render v ++ rbrace :: rest)) (rbrace :: rest)
          (by simp only [costMembers] at hcost; omega) rfl hwfv
          (by rw [skipWs_space]; exact skipWs_render v _)]
        show parseMemberSep f₂ (insertPair acc k v) (skipWs (rbrace :: rest)) = _
        rw [skipWs_cons_not _ _ (by decide)]
        obtain ⟨f₃, rfl⟩ : ∃ f₃, f₂ = f₃ + 1 := by
          simp only [costMembers] at hcost
          exact ⟨f₂ - 1, by omega⟩
        rw [parseMemberSep_succ_cons, if_neg (by decide), if_pos rfl]
        rw [foldIns, foldIns]
      | cons k2 v2 tl2 =>
        rw [renderMembers_expand_cons]
        rw [parseMembers_succ_cons, if_pos rfl, parseStrBody_escape]
        show parseMemberVal f₁ acc k (skipWs (':' :: ' '
          :: (render v ++ ',' :: ' '
            :: (renderMembers (.cons k2 v2 tl2) ++ rbrace :: rest)))) = _
        rw [skipWs_cons_not _ _ (by decide)]
        obtain ⟨f₂, rfl⟩ : ∃ f₂, f₁ = f₂ + 1 := by
          simp only [costMembers] at hcost
          exact ⟨f₁ - 1, by omega⟩
        rw [parseMemberVal_succ_cons, if_pos rfl]
        rw [P1 f₂ (by omega) v
          (' ' :: (render v ++ ',' :: ' ' :: (renderMembers (.cons k2 v2 tl2) ++ rbrace :: rest)))
          (',' :: ' ' :: (renderMembers (.cons k2 v2 tl2) ++ rbrace :: rest))
          (by simp only [costMembers] at hcost; omega) rfl hwfv
          (by rw [skipWs_space]; exact skipWs_render v _)]
        show parseMemberSep f₂ (insertPair acc k v)
          (skipWs (',' :: ' ' :: (renderMembers (.cons k2 v2 tl2) ++ rbrace :: rest))) = _
        rw [skipWs_cons_not _ _ (by decide)]
        obtain ⟨f₃, rfl⟩ : ∃ f₃, f₂ = f₃ + 1 := by
          simp only [costMembers] at hcost
          exact ⟨f₂ - 1, by omega⟩
        rw [parseMemberSep_succ_cons, if_pos rfl, skipWs_space]
        obtain ⟨cs2, hMeq⟩ := renderMembers_head k2 v2 tl2
        have hsw : skipWs (renderMembers (.cons k2 v2 tl2) ++ rbrace :: rest)
            = renderMembers (.cons k2 v2 tl2) ++ rbrace :: rest := by
          rw [hMeq, List.cons_append, skipWs_cons_not _ _ (by decide)]
        rw [hsw]
        rw [P3 f₃ (by omega) (.cons k2 v2 tl2) (insertPair acc k v) rest (by simp)
          (by simp only [costMembers] at hcost ⊢; omega) hwftl]
        rw [foldIns, foldIns, foldIns]

/-! ## Lemmas about the consumer loop -/

theorem handlerCalls_append (l₁ l₂ : List Ev) :
    handlerCalls (l₁ ++ l₂) = handlerCalls l₁ ++ handlerCalls l₂ := by
  unfold handlerCalls; exact List.filterMap_append l₁ l₂ _

theorem sleeps_append (l₁ l₂ : List Ev) :
    sleeps (l₁ ++ l₂) = sleeps l₁ ++ sleeps l₂ := by
  unfold sleeps; exact List.filterMap_append l₁ l₂ _

theorem fetchCounts_append (l₁ l₂ : List Ev) :
    fetchCounts (l₁ ++ l₂) = fetchCounts l₁ ++ fetchCounts l₂ := by
  unfold fetchCounts; exact List.filterMap_append l₁ l₂ _

/-- Dispatch of one message contributes exactly its decoded payload,
whatever the handler does. -/
theorem handlerCalls_process (msg : RawMessage) (h : Json → Bool) (q : String) :
    handlerCalls (_process_single_message msg h q) = (decodedPayload msg).toList := by
  unfold _process_single_message decodedPayload
  match msg.payload with
  | none => rfl
  | some p =>
    by_cases hp : p.isEmpty <;> simp only [hp, if_true, if_false]
    · rfl
    · match decode p with
      | none => rfl
      | some data => by_cases hh : h data <;> simp [hh, handlerCalls]

theorem handlerCalls_flatMap_process (msgs : List RawMessage) (h : Json → Bool) (q : String) :
    handlerCalls (msgs.flatMap fun m => _process_single_message m h q)
      = msgs.filterMap decodedPayload := by
  induction msgs with
  | nil => rfl
  | cons m ms ih =>
    rw [List.flatMap_cons, handlerCalls_append, ih, List.filterMap_cons, handlerCalls_process]
    cases decodedPayload m <;> simp

/-- A message dispatch performs no network fetch. -/
theorem fetchCounts_process (msg : RawMessage) (h : Json → Bool) (q : String) :
    fetchCounts (_process_single_message msg h q) = [] := by
  unfold _process_single_message
  match msg.payload with
  | none => rfl
  | some p =>
    by_cases hp : p.isEmpty <;> simp only [hp, if_true, if_false]
    · rfl
    · match decode p with
      | none => rfl
      | some data => by_cases hh : h data <;> simp [hh, fetchCounts]

/-- A successful poll dispatches exactly the decodable payloads, in fetch
order. -/
theorem poll_ok_handlerCalls (q : String) (h : Json → Bool) (pi : ℚ)
    (msgs : List RawMessage) :
    handlerCalls (_poll_queue_once q h pi (.ok msgs)).1
      = msgs.filterMap decodedPayload := by
  show handlerCalls (.fetchReq q 5 :: _ ++ [.sleep pi]) = _
  rw [show (Ev.fetchReq q 5 :: (msgs.flatMap fun m => _process_single_message m h q)
      ++ [Ev.sleep pi])
    = [Ev.fetchReq q 5] ++ (msgs.flatMap fun m => _process_single_message m h q)
      ++ [Ev.sleep pi] from rfl]
  rw [handlerCalls_append, handlerCalls_append, handlerCalls_flatMap_process]
  simp [handlerCalls]

/-- Every cycle begins with the fetch request, with batch size 5. -/
theorem cycle_head (q : String) (h : Json → Bool) (pi : ℚ) (o : FetchOutcome) :
    (_consumer_cycle q h pi o).head? = some (.fetchReq q 5) := by
  cases o <;> rfl

/-- Each cycle performs exactly one fetch, requesting 5 messages. -/
theorem fetchCounts_cycle (q : String) (h : Json → Bool) (pi : ℚ) (o : FetchOutcome) :
    fetchCounts (_consumer_cycle q h pi o) = [5] := by
  cases o with
  | err => rfl
  | ok msgs =>
    show fetchCounts ((.fetchReq q 5 :: _ ++ [.sleep pi]) ++ []) = _
    rw [List.append_nil]
    rw [show (Ev.fetchReq q 5 :: (msgs.flatMap fun m => _process_single_message m h q)
        ++ [Ev.sleep pi])
      = [Ev.fetchReq q 5] ++ (msgs.flatMap fun m => _process_single_message m h q)
        ++ [Ev.sleep pi] from rfl]
    rw [fetchCounts_append, fetchCounts_append]
    have : fetchCounts (msgs.flatMap fun m => _process_single_message m h q) = [] := by
      induction msgs with
      | nil => rfl
      | cons m ms ih =>
        rw [List.flatMap_cons, fetchCounts_append, ih, fetchCounts_process]
        simp
    rw [this]
    simp [fetchCounts]

/-- If every element maps to `some`, `filterMap` preserves length. -/
theorem filterMap_length_of_isSome {α β : Type} (f : α → Option β) (l : List α)
    (h : ∀ a ∈ l, (f a).isSome) : (l.filterMap f).length = l.length := by
  induction l with
  | nil => rfl
  | cons a l ih =>
    have ha := h a (by simp)
    cases hfa : f a with
    | some b =>
      rw [List.filterMap_cons, hfa]
      simp only [List.length_cons]
      rw [ih fun x hx => h x (by simp [hx])]
    | none => rw [hfa] at ha; simp at ha

/-- The empty string is not valid JSON. -/
theorem decode_nil : decode [] = none := by decide

/-- A successful cycle's handler calls are the batch's decodable payloads. -/
theorem handlerCalls_cycle_ok (q : String) (h : Json → Bool) (pi : ℚ)
    (msgs : List RawMessage) :
    handlerCalls (_consumer_cycle q h pi (.ok msgs)) = msgs.filterMap decodedPayload := by
  show handlerCalls ((_poll_queue_once q h pi (.ok msgs)).1 ++ []) = _
  rw [List.append_nil, poll_ok_handlerCalls]

/-- The trace of `n` cycles performs `n` fetches, each of batch size 5. -/
theorem fetchCounts_trace (q : String) (h : Json → Bool) (pi : ℚ)
    (outs : Nat → FetchOutcome) (n : Nat) :
    fetchCounts (_consumer_trace q h pi outs n) = List.replicate n 5 := by
  induction n with
  | zero => rfl
  | succ n ih =>
    show fetchCounts (_consumer_trace q h pi outs n ++ _consumer_cycle q h pi (outs n))
      = _
    rw [fetchCounts_append, ih, fetchCounts_cycle, List.replicate_succ']

/-! ## The claims -/

/-- C1: if the caller-supplied handler raises on message `j` of a fetched
batch, the exception is caught at the dispatch boundary: the batch's handler
invocations are exactly the decodable payloads in fetch order, independent
of where (or whether) the handler raises, the poll still reports success so
the loop continues to the next cycle, and a raising dispatch just appends an
error log after the handler call. -/
theorem C1_handler_exception_isolated (q : String) (h h' : Json → Bool) (pi : ℚ)
    (msgs : List RawMessage) :
    handlerCalls (_poll_queue_once q h pi (.ok msgs)).1 = msgs.filterMap decodedPayload ∧
    handlerCalls (_poll_queue_once q h pi (.ok msgs)).1
      = handlerCalls (_poll_queue_once q h' pi (.ok msgs)).1 ∧
    (_poll_queue_once q h pi (.ok msgs)).2 = true ∧
    (∀ msg p v, msg.payload = some p → decode p = some v → h v = false →
      _process_single_message msg h q = [.handlerCall v, .handlerErrLog q]) := by
  refine ⟨poll_ok_handlerCalls q h pi msgs, ?_, rfl, ?_⟩
  · rw [poll_ok_handlerCalls, poll_ok_handlerCalls]
  · intro msg p v hp hv hh
    unfold _process_single_message
    rw [hp]
    cases p with
    | nil => rw [decode_nil] at hv; cases hv
    | cons c cs => simp [hv, hh]

/-- C1 witness: a concrete batch where the handler raises on the first
message and the second is still dispatched. -/
theorem C1_handler_exception_isolated_witness :
    RawMessage.payload ⟨some ['7']⟩ = some ['7'] ∧
    decode ['7'] = some (.int 7) ∧
    (fun _ => false : Json → Bool) (.int 7) = false ∧
    _process_single_message ⟨some ['7']⟩ (fun _ => false) "meal_events"
      = [.handlerCall (.int 7), .handlerErrLog "meal_events"] ∧
    handlerCalls
        (_poll_queue_once "meal_events" (fun _ => false) 1
          (.ok [⟨some ['7']⟩, ⟨some ['8']⟩])).1
      = [.int 7, .int 8] :=
  ⟨rfl, by decide, rfl,
    (C1_handler_exception_isolated "meal_events" (fun _ => false) (fun _ => false) 1
        [⟨some ['7']⟩, ⟨some ['8']⟩]).2.2.2 ⟨some ['7']⟩ ['7'] (.int 7) rfl (by decide) rfl,
    by
      rw [(C1_handler_exception_isolated "meal_events" (fun _ => false) (fun _ => false) 1
        [⟨some ['7']⟩, ⟨some ['8']⟩]).1]
      decide⟩

/-- C2: if exactly one message of a batch has an undecodable payload and
every other payload decodes, a successful poll dispatches exactly the other
`K - 1` messages, in fetch order, and the batch is not aborted. -/
theorem C2_malformed_message_skipped (q : String) (h : Json → Bool) (pi : ℚ)
    (pre post : List RawMessage) (bad : RawMessage)
    (hbad : decodedPayload bad = none)
    (hpre : ∀ m ∈ pre, (decodedPayload m).isSome)
    (hpost : ∀ m ∈ post, (decodedPayload m).isSome) :
    handlerCalls (_poll_queue_once q h pi (.ok (pre ++ bad :: post))).1
      = (pre ++ post).filterMap decodedPayload ∧
    (handlerCalls (_poll_queue_once q h pi (.ok (pre ++ bad :: post))).1).length
      = (pre ++ bad :: post).length - 1 ∧
    (_poll_queue_once q h pi (.ok (pre ++ bad :: post))).2 = true := by
  have hmain : handlerCalls (_poll_queue_once q h pi (.ok (pre ++ bad :: post))).1
      = (pre ++ post).filterMap decodedPayload := by
    rw [poll_ok_handlerCalls, List.filterMap_append, List.filterMap_cons, hbad,
      List.filterMap_append]
  refine ⟨hmain, ?_, rfl⟩
  rw [hmain, filterMap_length_of_isSome _ _ ?_]
  · simp only [List.length_append, List.length_cons]
    omega
  · intro m hm
    rcases List.mem_append.mp hm with hmem | hmem
    · exact hpre m hmem
    · exact hpost m hmem

/-- C2 witness: a three-message batch whose middle payload is malformed;
the handler sees the first and third payloads only. -/
theorem C2_malformed_message_skipped_witness :
    decodedPayload ⟨some ['\x7b']⟩ = none ∧
    (∀ m ∈ [(⟨some ['1']⟩ : RawMessage)], (decodedPayload m).isSome) ∧
    (∀ m ∈ [(⟨some ['2']⟩ : RawMessage)], (decodedPayload m).isSome) ∧
    handlerCalls
        (_poll_queue_once "meal_events" (fun _ => true) 1
          (.ok ([⟨some ['1']⟩] ++ ⟨some ['\x7b']⟩ :: [⟨some ['2']⟩]))).1
      = [.int 1, .int 2] ∧
    (handlerCalls
        (_poll_queue_once "meal_events" (fun _ => true) 1
          (.ok ([⟨some ['1']⟩] ++ ⟨some ['\x7b']⟩ :: [⟨some ['2']⟩]))).1).length = 3 - 1 :=
  ⟨by decide, by decide, by decide,
    by
      rw [(C2_malformed_message_skipped "meal_events" (fun _ => true) 1
        [⟨some ['1']⟩] [⟨some ['2']⟩] ⟨some ['\x7b']⟩ (by decide) (by decide) (by decide)).1]
      decide,
    by
      rw [(C2_malformed_message_skipped "meal_events" (fun _ => true) 1
        [⟨some ['1']⟩] [⟨some ['2']⟩] ⟨some ['\x7b']⟩ (by decide) (by decide) (by decide)).2.1]
      decide⟩

/-- C3: when a cycle's fetch raises, that cycle performs no handler
invocation; the failure stays inside the loop (the trace simply extends by
that cycle) and before the next cycle's fetch the loop sleeps exactly
`poll_interval * 2` (the backoff), so the next fetch attempt happens no
sooner than that. -/
theorem C3_fetch_failure_backoff (q : String) (h : Json → Bool) (pi : ℚ)
    (outs : Nat → FetchOutcome) (n : Nat) (herr : outs n = .err) :
    handlerCalls (_consumer_cycle q h pi (outs n)) = [] ∧
    sleeps (_consumer_cycle q h pi (outs n)) = [pi * 2] ∧
    _consumer_trace q h pi outs (n + 1)
      = _consumer_trace q h pi outs n ++ _consumer_cycle q h pi (outs n) ∧
    (_consumer_cycle q h pi (outs (n + 1))).head? = some (.fetchReq q 5) := by
  exact ⟨by rw [herr]; rfl, by rw [herr]; rfl, rfl, cycle_head q h pi (outs (n + 1))⟩

/-- C3 witness: a run whose fourth cycle fails. -/
theorem C3_fetch_failure_backoff_witness :
    (fun k => if k = 3 then FetchOutcome.err else .ok [] : Nat → FetchOutcome) 3 = .err ∧
    handlerCalls
        (_consumer_cycle "meal_events" (fun _ => true) 1
          ((fun k => if k = 3 then FetchOutcome.err else .ok []) 3)) = [] ∧
    sleeps
        (_consumer_cycle "meal_events" (fun _ => true) 1
          ((fun k => if k = 3 then FetchOutcome.err else .ok []) 3)) = [1 * 2] :=
  ⟨rfl,
    (C3_fetch_failure_backoff "meal_events" (fun _ => true) 1
      (fun k => if k = 3 then FetchOutcome.err else .ok []) 3 rfl).1,
    (C3_fetch_failure_backoff "meal_events" (fun _ => true) 1
      (fun k => if k = 3 then FetchOutcome.err else .ok []) 3 rfl).2.1⟩

/-- C4 counterexample: two calls of `declare_queue` for the same channel
perform two network declare calls, not at most one — the code keeps no
in-memory set of declared channels. -/
theorem C4_declare_twice_counterexample :
    ¬ declareCount
        ((declare_queue "meal_events" true false ⟨201, [], some (.obj .nil)⟩).1 ++
          (declare_queue "meal_events" true false ⟨201, [], some (.obj .nil)⟩).1) ≤ 1 := by
  decide

/-- C4 (amended): every call of `declare_queue` performs exactly one network
declare call — idempotence is delegated to the broker's `PUT`, with no
caching — and a failed declaration (4xx/5xx) raises while a successful one
returns quietly, so two calls always make two network requests. -/
theorem C4_declare_each_call_networks (q : String) (d a : Bool)
    (resp resp' : HttpResponse) :
    declareCount (declare_queue q d a resp).1 = 1 ∧
    declareCount ((declare_queue q d a resp).1 ++ (declare_queue q d a resp').1) = 2 ∧
    (raiseForStatusFails resp = true →
      (declare_queue q d a resp).2 = .error (.declareFailed q resp.text)) ∧
    (raiseForStatusFails resp = false → (declare_queue q d a resp).2 = .ok ()) := by
  refine ⟨rfl, rfl, ?_, ?_⟩ <;> intro hst <;> simp [declare_queue, hst]

/-- C4 witness: a failing then a succeeding declaration. -/
theorem C4_declare_each_call_networks_witness :
    raiseForStatusFails ⟨404, ['x'], none⟩ = true ∧
    (declare_queue "meal_events" true false ⟨404, ['x'], none⟩).2
      = .error (.declareFailed "meal_events" ['x']) ∧
    declareCount
        ((declare_queue "meal_events" true false ⟨404, ['x'], none⟩).1 ++
          (declare_queue "meal_events" true false ⟨201, [], none⟩).1) = 2 :=
  ⟨by decide,
    (C4_declare_each_call_networks "meal_events" true false ⟨404, ['x'], none⟩
      ⟨201, [], none⟩).2.2.1 (by decide),
    (C4_declare_each_call_networks "meal_events" true false ⟨404, ['x'], none⟩
      ⟨201, [], none⟩).2.1⟩

/-- C5 counterexample: a concrete `publish_message` call whose trace
contains one publish request and zero declare requests, so the publisher
does not first ensure the channel is declared. -/
theorem C5_publish_counterexample :
    declareCount
        (publish_message "meal_events" (.obj .nil)
          ⟨200, [], some (.obj (.cons "routed".toList (.bool true) .nil))⟩).1 = 0 ∧
    publishCount
        (publish_message "meal_events" (.obj .nil)
          ⟨200, [], some (.obj (.cons "routed".toList (.bool true) .nil))⟩).1 = 1 := by
  constructor <;> rfl

/-- C5 (amended): `publish_message` performs no declaration at all — its
trace is exactly one publish request carrying the JSON encoding of the
event; any declaration happens elsewhere (`start_consumer` declares). -/
theorem C5_publish_never_declares (rk : String) (payload : Json)
    (resp : HttpResponse) :
    (publish_message rk payload resp).1 = [.publishReq rk (encode payload)] ∧
    declareCount (publish_message rk payload resp).1 = 0 :=
  ⟨rfl, rfl⟩

/-- C6 counterexample: for the concrete run in which every fetch returns one
decodable message, there is no point after which handler invocations stop —
the loop has no stop mechanism, so the operational content of the claim
("after stop() no further handler invocations occur") fails. -/
theorem C6_stop_counterexample :
    ¬ ∃ stopAt : Nat, ∀ n : Nat, stopAt ≤ n →
      handlerCalls
          (_consumer_trace "c1" (fun _ => true) 1 (fun _ => .ok [⟨some ['1']⟩]) (n + 1))
        = handlerCalls
            (_consumer_trace "c1" (fun _ => true) 1 (fun _ => .ok [⟨some ['1']⟩]) n) := by
  rintro ⟨stopAt, hstop⟩
  have h := hstop stopAt le_rfl
  rw [show _consumer_trace "c1" (fun _ => true) 1 (fun _ => .ok [⟨some ['1']⟩]) (stopAt + 1)
      = _consumer_trace "c1" (fun _ => true) 1 (fun _ => .ok [⟨some ['1']⟩]) stopAt ++
        _consumer_cycle "c1" (fun _ => true) 1 (.ok [⟨some ['1']⟩]) from rfl,
    handlerCalls_append] at h
  have hc : handlerCalls (_consumer_cycle "c1" (fun _ => true) 1 (.ok [⟨some ['1']⟩]))
      = [.int 1] := by decide
  rw [hc] at h
  have := congrArg List.length h
  simp at this

/-- C6 (amended): `start_consumer` returns a bare daemon `threading.Thread`
with no stop operation; the loop guard is literally `True`, and every later
cycle whose fetch returns a decodable message performs one more handler
invocation, however late the cycle — handler invocations never cease while
messages keep arriving. -/
theorem C6_no_stop_loop_forever (q : String) (h : Json → Bool) (pi : ℚ)
    (outs : Nat → FetchOutcome) (n : Nat) (resp : HttpResponse)
    (t : ConsumerThread) (msg : RawMessage) (v : Json) :
    _consumer_loop_condition = true ∧
    ((start_consumer q h pi resp).2 = .ok t → t.daemon = true) ∧
    (outs n = .ok [msg] → decodedPayload msg = some v →
      handlerCalls (_consumer_trace q h pi outs (n + 1))
        = handlerCalls (_consumer_trace q h pi outs n) ++ [v]) := by
  refine ⟨rfl, ?_, ?_⟩
  · intro hok
    unfold start_consumer declare_queue at hok
    by_cases hst : raiseForStatusFails resp <;> simp [hst] at hok
    rw [← hok]
  · intro houts hdec
    rw [show _consumer_trace q h pi outs (n + 1)
        = _consumer_trace q h pi outs n ++ _consumer_cycle q h pi (outs n) from rfl,
      handlerCalls_append, houts, handlerCalls_cycle_ok]
    simp [hdec]

/-- C6 witness: the thread handle of a successful start is a daemon, and
cycle one million of an always-delivering run still dispatches. -/
theorem C6_no_stop_loop_forever_witness :
    (start_consumer "c1" (fun _ => true) 1 ⟨201, [], none⟩).2 = .ok ⟨true⟩ ∧
    (fun _ => FetchOutcome.ok [⟨some ['1']⟩]) 1000000 = .ok [⟨some ['1']⟩] ∧
    decodedPayload ⟨some ['1']⟩ = some (.int 1) ∧
    handlerCalls
        (_consumer_trace "c1" (fun _ => true) 1 (fun _ => .ok [⟨some ['1']⟩]) (1000000 + 1))
      = handlerCalls
          (_consumer_trace "c1" (fun _ => true) 1 (fun _ => .ok [⟨some ['1']⟩]) 1000000)
        ++ [.int 1] :=
  ⟨rfl, rfl, by decide,
    (C6_no_stop_loop_forever "c1" (fun _ => true) 1 (fun _ => .ok [⟨some ['1']⟩]) 1000000
      ⟨201, [], none⟩ ⟨true⟩ ⟨some ['1']⟩ (.int 1)).2.2 rfl (by decide)⟩

/-- C7: a publish whose broker response is 2xx but whose JSON body reports
`routed: false` or omits `routed` raises the not-routed error instead of
succeeding, and the request trace still carries the encoding of the original
payload (nothing about the payload is consumed or discarded — in the source
the caller's object is untouched and the response dict is in the error
message). -/
theorem C7_not_routed_error (rk : String) (payload : Json) (resp : HttpResponse)
    (ms : JObj) (h2 : 200 ≤ resp.status) (h3 : resp.status < 300)
    (hbody : resp.jsonBody = some (.obj ms))
    (hrouted : jget ms "routed".toList = none ∨ jget ms "routed".toList = some (.bool false)) :
    (publish_message rk payload resp).2 = .error (.notRouted rk (.obj ms)) ∧
    (publish_message rk payload resp).1 = [.publishReq rk (encode payload)] := by
  have hst : raiseForStatusFails resp = false := by
    simp only [raiseForStatusFails, Bool.and_eq_false_iff]
    left
    simp only [decide_eq_false_iff_not]
    omega
  refine ⟨?_, rfl⟩
  show (if raiseForStatusFails resp = true then Except.error (PyErr.publishFailed rk resp.text)
      else _) = _
  rw [hst, if_neg (show ¬(false = true) by simp), hbody]
  show (if pyTruthy ((jget ms "routed".toList).getD (Json.bool false)) = true
      then Except.ok () else Except.error (PyErr.notRouted rk (Json.obj ms))) = _
  rcases hrouted with hr | hr <;> rw [hr] <;> rfl

/-- C7 witness: a 200 response whose body is an empty object (no `routed`
field). -/
theorem C7_not_routed_error_witness :
    200 ≤ 200 ∧ (200 : Nat) < 300 ∧
    HttpResponse.jsonBody ⟨200, [], some (.obj .nil)⟩ = some (.obj .nil) ∧
    jget .nil "routed".toList = none ∧
    (publish_message "meal_events" (.obj .nil) ⟨200, [], some (.obj .nil)⟩).2
      = .error (.notRouted "meal_events" (.obj .nil)) :=
  ⟨by decide, by decide, rfl, rfl,
    (C7_not_routed_error "meal_events" (.obj .nil) ⟨200, [], some (.obj .nil)⟩ .nil
      (by decide) (by decide) rfl (Or.inl rfl)).1⟩

/-- C8: decoding the canonical JSON encoding of a JSON-representable
mapping — any value whose objects have pairwise-distinct keys, as every
value built from Python dicts does — yields the value again:
`decode (encode E) = some E`.  (Float payloads are outside the model; the
discrete fragment of `json.dumps`/`json.loads` is modelled in full,
including escapes and astral characters.) -/
theorem C8_decode_encode_roundtrip (e : Json) (hwf : wfJ e = true) :
    decode (encode e) = some e := by
  show (match parseVal (4 * (render e).length + 4) (render e) with
    | some (v, rest) => if skipWs rest = [] then some v else none
    | none => none) = some e
  rw [(parse_render_all (4 * (render e).length + 4)).1 e (render e) []
    (by have := costVal_le_render e; omega) rfl hwf
    (by
      obtain ⟨c, cs', heq, hws, -, -⟩ := render_head e
      rw [List.append_nil, heq, skipWs_cons_not _ _ hws])]
  rfl

/-- C8 witness: the spec's own example event round-trips. -/
theorem C8_decode_encode_roundtrip_witness :
    wfJ (.obj (.cons "event_type".toList (.str ['x']) (.cons ['n'] (.int 1) .nil))) = true ∧
    decode (encode (.obj (.cons "event_type".toList (.str ['x'])
        (.cons ['n'] (.int 1) .nil))))
      = some (.obj (.cons "event_type".toList (.str ['x']) (.cons ['n'] (.int 1) .nil))) :=
  ⟨by decide, C8_decode_encode_roundtrip _ (by decide)⟩

/-- C9: the dispatch boundary enforces no event-shape: a missing or empty
payload is skipped without invoking the handler, but any payload that
decodes — to a number, string, list, null, or boolean just as well as to a
mapping — is passed to the handler as decoded. -/
theorem C9_nonmapping_dispatched (q : String) (h : Json → Bool) (msg : RawMessage) :
    (msg.payload = none → _process_single_message msg h q = []) ∧
    (msg.payload = some [] → _process_single_message msg h q = []) ∧
    (∀ p v, msg.payload = some p → decode p = some v →
      handlerCalls (_process_single_message msg h q) = [v]) := by
  refine ⟨?_, ?_, ?_⟩
  · intro hp; unfold _process_single_message; rw [hp]
  · intro hp; unfold _process_single_message; rw [hp]; rfl
  · intro p v hp hv
    unfold _process_single_message
    rw [hp]
    cases p with
    | nil => rw [decode_nil] at hv; cases hv
    | cons c cs =>
      simp only [List.isEmpty_cons, Bool.false_eq_true, if_false, hv]
      by_cases hh : h v <;> simp [hh, handlerCalls]

/-- C9 witness: a JSON list payload — not a mapping — is dispatched as-is. -/
theorem C9_nonmapping_dispatched_witness :
    RawMessage.payload ⟨some "[1, 2]".toList⟩ = some "[1, 2]".toList ∧
    decode "[1, 2]".toList = some (.arr (.cons (.int 1) (.cons (.int 2) .nil))) ∧
    handlerCalls
        (_process_single_message ⟨some "[1, 2]".toList⟩ (fun _ => true) "meal_events")
      = [.arr (.cons (.int 1) (.cons (.int 2) .nil))] :=
  ⟨rfl, by decide,
    (C9_nonmapping_dispatched "meal_events" (fun _ => true) ⟨some "[1, 2]".toList⟩).2.2
      "[1, 2]".toList (.arr (.cons (.int 1) (.cons (.int 2) .nil))) rfl (by decide)⟩

/-- C10: the backoff sleep after a failed poll is always exactly
`poll_interval * 2`, independent of how many consecutive polls failed
before (the failed cycle's events do not depend on any other cycle), and
every fetch of a trace requests exactly 5 messages. -/
theorem C10_fixed_backoff_and_batch (q : String) (h : Json → Bool) (pi : ℚ)
    (outs : Nat → FetchOutcome) (n : Nat) :
    sleeps (_consumer_cycle q h pi .err) = [pi * 2] ∧
    fetchCounts (_consumer_trace q h pi outs n) = List.replicate n 5 :=
  ⟨rfl, fetchCounts_trace q h pi outs n⟩

end HealthyBites
